import Mathlib

/-!
Verification of the control (de)serializer of `src/libcamera/control_serializer.cpp`.

The serializer encodes `ControlInfoMap` and `ControlList` objects into a flat
byte buffer (`ByteStreamBuffer`) using the wire format of `ipa_controls.h`
(a 5×u32 header, fixed-size entry records, then value payloads), and keeps a
stateful cache (serial counter, map-identity→handle table, handle→map table,
append-only ControlId store) that correlates lists with their maps.

`ByteStreamBuffer`, the `ipa_controls.h` structs and the `ControlValue` /
`ControlList` data model are not part of the provided sources; they are
modelled from the specification (marked `Modelled from the spec:` below).
Bytes are natural numbers below 256; multi-byte fields are little-endian;
machine integers are modelled as `Nat`/`Int` with explicit reduction
modulo 2^32 or 2^64 where the C++ types wrap.
-/

namespace LibCamera

/-- Little-endian bytes of a 32-bit word (the value is taken modulo 2^32,
as storing a wider value into a `u32` field truncates). -/
def le32 (n : Nat) : List Nat :=
  [n % 256, n / 256 % 256, n / 65536 % 256, n / 16777216 % 256]

/-- Little-endian bytes of a 64-bit word (value taken modulo 2^64). -/
def le64 (n : Nat) : List Nat :=
  le32 (n % 4294967296) ++ le32 (n / 4294967296)

/-- Read a little-endian 32-bit word from the first four bytes of a list
(missing bytes read as 0, mirroring that a failed `ByteStreamBuffer::read`
leaves the destination with no defined data; that path is unreachable for
the well-formed inputs the theorems quantify over). -/
def parse32 (bs : List Nat) : Nat :=
  bs.getD 0 0 + 256 * bs.getD 1 0 + 65536 * bs.getD 2 0 + 16777216 * bs.getD 3 0

/-- Read a little-endian 64-bit word from the first eight bytes of a list. -/
def parse64 (bs : List Nat) : Nat :=
  parse32 (bs.take 4) + 4294967296 * parse32 (bs.drop 4)

/-- The unsigned-64-bit value of an `int64_t` (two's-complement conversion,
as in `uint64_t data = value.get<int64_t>();`). -/
def u64ofInt (v : Int) : Nat :=
  (v % 18446744073709551616).toNat

/-- The unsigned-32-bit value of an `int32_t` (two's-complement bit pattern). -/
def u32ofInt (v : Int) : Nat :=
  (v % 4294967296).toNat

/-- The signed value a `u32` bit pattern denotes when read back as `int32_t`. -/
def i32ofU (n : Nat) : Int :=
  if n < 2147483648 then (n : Int) else (n : Int) - 4294967296

/-- The signed value a `u64` bit pattern denotes when read back as `int64_t`. -/
def i64ofU (n : Nat) : Int :=
  if n < 9223372036854775808 then (n : Int) else (n : Int) - 18446744073709551616

/-- Unsigned 64-bit subtraction with wraparound (`size_t` arithmetic such as
`hdr.data_offset - sizeof(hdr)` on a forged header). Requires `b ≤ 2^64`. -/
def usub64 (a b : Nat) : Nat :=
  (a + 18446744073709551616 - b) % 18446744073709551616

/-- Modelled from the spec: the Byte Cursor Buffer in write mode — a flat
memory region with a capacity, the bytes written so far (the running offset
is their count) and an overflow flag; writes beyond capacity are rejected by
setting the flag and writing nothing. -/
structure WBuf where
  cap : Nat
  data : List Nat
  ovf : Bool
deriving DecidableEq

/-- Modelled from the spec: `ByteStreamBuffer::write` — append the bytes if
they fit and the buffer has not overflowed, otherwise set the overflow flag
and leave the contents untouched. -/
def WBuf.write (b : WBuf) (bs : List Nat) : WBuf :=
  if b.ovf ∨ b.cap < b.data.length + bs.length then { b with ovf := true }
  else { b with data := b.data ++ bs }

/-- Modelled from the spec: `ByteStreamBuffer::carveOut` on the write side —
partition the next `n` bytes of remaining capacity into an independent
sub-buffer (returned first) and advance the parent cursor past them; if `n`
bytes do not remain, set the parent's overflow flag and return a zero-sized
buffer. The carved span is zero-filled until the sub-buffer's writes are
patched back in (C++ leaves the underlying memory unspecified; no theorem
depends on those bytes). -/
def WBuf.carveOut (b : WBuf) (n : Nat) : WBuf × WBuf :=
  if b.ovf then (⟨0, [], false⟩, b)
  else if b.cap < b.data.length + n then (⟨0, [], false⟩, { b with ovf := true })
  else (⟨n, [], false⟩, { b with data := b.data ++ List.replicate n 0 })

/-- Modelled from the spec: the Byte Cursor Buffer in read mode — the
region's bytes, a read cursor and an overflow flag. -/
structure RBuf where
  data : List Nat
  pos : Nat
  ovf : Bool
deriving DecidableEq

/-- Modelled from the spec: `ByteStreamBuffer::read` of `n` bytes — return
them and advance the cursor, or set the overflow flag and return nothing
(the C++ caller's destination keeps no defined data on failure; this model
reads such a destination as zeros). -/
def RBuf.read (b : RBuf) (n : Nat) : List Nat × RBuf :=
  if b.ovf ∨ b.data.length < b.pos + n then ([], { b with ovf := true })
  else ((b.data.drop b.pos).take n, { b with pos := b.pos + n })

/-- Modelled from the spec: `ByteStreamBuffer::carveOut` on the read side —
split off the next `n` bytes as an independent sub-buffer whose own cursor
starts at 0. -/
def RBuf.carveOut (b : RBuf) (n : Nat) : RBuf × RBuf :=
  if b.ovf then (⟨[], 0, false⟩, b)
  else if b.data.length < b.pos + n then (⟨[], 0, false⟩, { b with ovf := true })
  else (⟨(b.data.drop b.pos).take n, 0, false⟩, { b with pos := b.pos + n })

/-- Modelled from the spec: a Typed Value — one of the closed set of value
kinds (absence, boolean, 32-bit signed, 64-bit signed) with its payload.
The `Int` payloads carry the mathematical value; well-formedness (below)
bounds them to the machine range. -/
inductive ControlValue
  | vnone
  | vbool (b : Bool)
  | vint32 (v : Int)
  | vint64 (v : Int)
deriving DecidableEq

/-- The wire code of a value's kind (`ControlType`: None = 0, Bool = 1,
Integer32 = 2, Integer64 = 3). -/
def ControlValue.type : ControlValue → Nat
  | .vnone => 0
  | .vbool _ => 1
  | .vint32 _ => 2
  | .vint64 _ => 3

/-- The `ControlValueSize` table of `control_serializer.cpp`, indexed by the
wire kind code: None → 1 (placeholder), Bool → sizeof(bool) = 1,
Integer32 → 4, Integer64 → 8. Indices above 3 never arise from a
`ControlValue` (indexing out of range is undefined in the C++). -/
def controlValueSize : Nat → Nat
  | 0 => 1
  | 1 => 1
  | 2 => 4
  | 3 => 8
  | _ => 0

/-- `ControlSerializer::binarySize(const ControlValue &)`. -/
def binarySizeValue (v : ControlValue) : Nat :=
  controlValueSize v.type

/-- The bytes `ControlSerializer::store(const ControlValue &, …)` writes:
Bool as one byte, Integer32 as 4 little-endian bytes, Integer64 through an
unsigned 64-bit lane as 8 little-endian bytes; the default branch (None)
writes nothing. -/
def storeValueBytes : ControlValue → List Nat
  | .vbool b => [if b then 1 else 0]
  | .vint32 v => le32 (u32ofInt v)
  | .vint64 v => le64 (u64ofInt v)
  | .vnone => []

/-- `ControlSerializer::store(const ControlValue &, ByteStreamBuffer &)`. -/
def storeValue (v : ControlValue) (b : WBuf) : WBuf :=
  b.write (storeValueBytes v)

/-- `ControlSerializer::load<ControlValue>`: read the fixed-width payload for
the given wire kind code; an unrecognized code reads nothing and yields the
default (empty) value. -/
def loadControlValue (t : Nat) (b : RBuf) : ControlValue × RBuf :=
  match t with
  | 1 =>
    let r := b.read 1
    (.vbool (r.1.getD 0 0 != 0), r.2)
  | 2 =>
    let r := b.read 4
    (.vint32 (i32ofU (parse32 r.1)), r.2)
  | 3 =>
    let r := b.read 8
    (.vint64 (i64ofU (parse64 r.1)), r.2)
  | _ => (.vnone, b)

/-- Modelled from the spec: a Range — a (min, max) pair of same-kind typed
values (`ControlRange`). -/
structure ControlRange where
  min : ControlValue
  max : ControlValue
deriving DecidableEq

/-- `ControlSerializer::binarySize(const ControlRange &)`. -/
def binarySizeRange (r : ControlRange) : Nat :=
  binarySizeValue r.min + binarySizeValue r.max

/-- `ControlSerializer::store(const ControlRange &, …)`: min then max. -/
def storeRange (r : ControlRange) (b : WBuf) : WBuf :=
  storeValue r.max (storeValue r.min b)

/-- The bytes a stored range occupies: min's bytes then max's bytes. -/
def storeRangeBytes (r : ControlRange) : List Nat :=
  storeValueBytes r.min ++ storeValueBytes r.max

/-- `ControlSerializer::load<ControlRange>`: load min then max with the same
kind code. -/
def loadControlRange (t : Nat) (b : RBuf) : ControlRange × RBuf :=
  let mn := loadControlValue t b
  let mx := loadControlValue t mn.2
  (⟨mn.1, mx.1⟩, mx.2)

/-- Modelled from the spec: an Identifier Catalog Entry (`ControlId`) — the
immutable triple (numeric id, display name, value kind code). -/
structure ControlId where
  id : Nat
  name : String
  type : Nat
deriving DecidableEq

/-- Modelled from the spec: a Metadata Map (`ControlInfoMap`) — an ordered
association of Identifier Catalog Entries to Ranges, listed in the map's
canonical iteration order. -/
abbrev ControlInfoMap := List (ControlId × ControlRange)

/-- The identity of a `ControlInfoMap` object (its address in the C++):
either a map owned by the caller (`ext`, an arbitrary caller-chosen token)
or the map cached by the serializer under a handle (`cached h` stands for
`&infoMaps_[h]`). -/
inductive MapRef
  | ext (token : Nat)
  | cached (handle : Nat)
deriving DecidableEq

/-- Modelled from the spec: what a `ControlList` is validated against — no
idmap at all (a default-constructed list), the global fallback id catalog
(`controls::controls`), or a Metadata Map's idmap. -/
inductive IdSrc
  | null
  | global
  | ofMap (r : MapRef)
deriving DecidableEq

/-- Modelled from the spec: a Value List (`ControlList`) — its idmap binding
and its (numeric id → typed value) entries in iteration order. -/
structure ControlList where
  src : IdSrc
  entries : List (Nat × ControlValue)
deriving DecidableEq

/-- A default-constructed `ControlList` (what a failed deserialize returns). -/
def emptyControlList : ControlList :=
  ⟨.null, []⟩

/-- Insert with overwrite into an association list, keeping the first
occurrence's position (the `operator[]`-assignment of a C++ map). -/
def assocSet {α β : Type} [DecidableEq α] (k : α) (v : β) : List (α × β) → List (α × β)
  | [] => [(k, v)]
  | (k1, v1) :: rest => if k = k1 then (k, v) :: rest else (k1, v1) :: assocSet k v rest

/-- Lookup by key in an association list (`std::map::find`). -/
def assocFind {α β : Type} [DecidableEq α] (k : α) : List (α × β) → Option β
  | [] => Option.none
  | (k1, v1) :: rest => if k = k1 then some v1 else assocFind k rest

/-- Scan an association list for an entry with the given value and return its
key (the `std::find_if` over `infoMapHandles_` in the ControlList decode). -/
def findByValue (h : Nat) : List (MapRef × Nat) → Option MapRef
  | [] => Option.none
  | (k1, v1) :: rest => if v1 = h then some k1 else findByValue h rest

/-- The `ControlSerializer`'s internal state: the monotonic (wrapping 32-bit)
serial counter, the map-identity→handle table `infoMapHandles_`, the
handle→decoded-map table `infoMaps_`, and the append-only ControlId store
`controlIds_`. -/
structure ControlSerializer where
  serial : Nat
  infoMapHandles : List (MapRef × Nat)
  infoMaps : List (Nat × ControlInfoMap)
  controlIds : List ControlId
deriving DecidableEq

/-- `ControlSerializer::ControlSerializer()`: fresh state. -/
def ControlSerializer.init : ControlSerializer :=
  ⟨0, [], [], []⟩

/-- `ControlSerializer::reset()`: clear the serial counter and all caches. -/
def ControlSerializer.reset (_ : ControlSerializer) : ControlSerializer :=
  ControlSerializer.init

/-- Modelled from the spec: `sizeof(struct ipa_controls_header)` — five u32
fields (version, handle, entries, size, data_offset). -/
def ipaControlsHeaderSize : Nat := 20

/-- Modelled from the spec: `sizeof(struct ipa_control_range_entry)` — three
u32 fields (id, kind, offset). -/
def ipaControlRangeEntrySize : Nat := 12

/-- Modelled from the spec: `sizeof(struct ipa_control_value_entry)` — four
u32 fields (id, count, kind, offset). -/
def ipaControlValueEntrySize : Nat := 16

/-- Modelled from the spec: the single supported wire format version
constant `IPA_CONTROLS_FORMAT_VERSION`. -/
def ipaControlsFormatVersion : Nat := 1

/-- The `struct ipa_controls_header` fields. -/
structure IpaControlsHeader where
  version : Nat
  handle : Nat
  entries : Nat
  size : Nat
  dataOffset : Nat
deriving DecidableEq

/-- The header as it is laid out in the buffer (each field truncated to its
u32 width by `le32`). -/
def headerBytes (h : IpaControlsHeader) : List Nat :=
  le32 h.version ++ le32 h.handle ++ le32 h.entries ++ le32 h.size ++ le32 h.dataOffset

/-- Read a header back from 20 bytes. -/
def parseHeader (bs : List Nat) : IpaControlsHeader :=
  ⟨parse32 bs, parse32 (bs.drop 4), parse32 (bs.drop 8),
   parse32 (bs.drop 12), parse32 (bs.drop 16)⟩

/-- `ControlSerializer::binarySize(const ControlInfoMap &)`: header plus one
range-entry record per control plus each range's payload size. -/
def binarySizeInfoMap (info : ControlInfoMap) : Nat :=
  ipaControlsHeaderSize + info.length * ipaControlRangeEntrySize
    + (info.map (fun c => binarySizeRange c.2)).sum

/-- `ControlSerializer::binarySize(const ControlList &)`: header plus one
value-entry record per control plus each value's payload size. -/
def binarySizeList (list : ControlList) : Nat :=
  ipaControlsHeaderSize + list.entries.length * ipaControlValueEntrySize
    + (list.entries.map (fun c => binarySizeValue c.2)).sum

/-- The error numbers the serializer returns negated (`-ENOSPC`, `-ENOENT`). -/
def ENOSPC : Int := 28

def ENOENT : Int := 2

/-- Pad region contents to the region's carved size with the placeholder
zero bytes of the untouched remainder. -/
def padTo (n : Nat) (bs : List Nat) : List Nat :=
  bs ++ List.replicate (n - bs.length) 0

/-- The entries/values loop of `ControlSerializer::serialize(ControlInfoMap)`:
for each control write a range-entry record (id, kind, running offset of the
values cursor) into the entries sub-buffer and the range payload into the
values sub-buffer. -/
def sInfoLoop : ControlInfoMap → WBuf → WBuf → WBuf × WBuf
  | [], eb, vb => (eb, vb)
  | (cid, range) :: rest, eb, vb =>
    sInfoLoop rest
      (eb.write (le32 cid.id ++ le32 cid.type ++ le32 vb.data.length))
      (storeRange range vb)

/-- `ControlSerializer::serialize(const ControlInfoMap &, ByteStreamBuffer &)`:
compute region sizes, assign the handle `++serial_`, write the header, carve
the entries and values regions, run the entry loop, and on overflow return
`-ENOSPC` without registering the handle; on success register
identity→handle. Returns (status, buffer, new state); on success the
buffer's contents carry the carved regions as written. -/
def serializeInfoMap (s : ControlSerializer) (ref : MapRef) (info : ControlInfoMap)
    (buf : WBuf) : Int × WBuf × ControlSerializer :=
  let entriesSize := info.length * ipaControlRangeEntrySize
  let valuesSize := (info.map (fun c => binarySizeRange c.2)).sum
  let handle := (s.serial + 1) % 4294967296
  let s1 : ControlSerializer := { s with serial := handle }
  let hdr : IpaControlsHeader :=
    ⟨ipaControlsFormatVersion, handle, info.length,
     ipaControlsHeaderSize + entriesSize + valuesSize,
     ipaControlsHeaderSize + entriesSize⟩
  let buf1 := buf.write (headerBytes hdr)
  let c1 := buf1.carveOut entriesSize
  let c2 := c1.2.carveOut valuesSize
  let lp := sInfoLoop info c1.1 c2.1
  if c2.2.ovf ∨ lp.1.ovf ∨ lp.2.ovf then
    (-ENOSPC, c2.2, s1)
  else
    (0,
     { c2.2 with data := buf1.data ++ padTo entriesSize lp.1.data ++ padTo valuesSize lp.2.data },
     { s1 with infoMapHandles := assocSet ref handle s1.infoMapHandles })

/-- The entries/values loop of `ControlSerializer::serialize(ControlList)`:
one value-entry record (id, count = 1, kind, running offset) per control,
and the value payload into the values sub-buffer. -/
def sListLoop : List (Nat × ControlValue) → WBuf → WBuf → WBuf × WBuf
  | [], eb, vb => (eb, vb)
  | (cid, v) :: rest, eb, vb =>
    sListLoop rest
      (eb.write (le32 cid ++ le32 1 ++ le32 v.type ++ le32 vb.data.length))
      (storeValue v vb)

/-- `ControlSerializer::serialize(const ControlList &, ByteStreamBuffer &)`:
resolve the list's ControlInfoMap to a handle (0 when the list has none,
`-ENOENT` with nothing written when the map is unknown), then write header,
carve regions and run the entry loop; `-ENOSPC` on overflow. -/
def serializeList (s : ControlSerializer) (list : ControlList)
    (buf : WBuf) : Int × WBuf × ControlSerializer :=
  let handleFound : Option Nat :=
    match list.src with
    | .ofMap r => assocFind r s.infoMapHandles
    | _ => some 0
  match handleFound with
  | Option.none => (-ENOENT, buf, s)
  | some infoMapHandle =>
    let entriesSize := list.entries.length * ipaControlValueEntrySize
    let valuesSize := (list.entries.map (fun c => binarySizeValue c.2)).sum
    let hdr : IpaControlsHeader :=
      ⟨ipaControlsFormatVersion, infoMapHandle, list.entries.length,
       ipaControlsHeaderSize + entriesSize + valuesSize,
       ipaControlsHeaderSize + entriesSize⟩
    let buf1 := buf.write (headerBytes hdr)
    let c1 := buf1.carveOut entriesSize
    let c2 := c1.2.carveOut valuesSize
    let lp := sListLoop list.entries c1.1 c2.1
    if c2.2.ovf ∨ lp.1.ovf ∨ lp.2.ovf then
      (-ENOSPC, c2.2, s)
    else
      (0,
       { c2.2 with data := buf1.data ++ padTo entriesSize lp.1.data ++ padTo valuesSize lp.2.data },
       s)

/-- The entry loop of `ControlSerializer::deserialize<ControlInfoMap>`: read
one range-entry record per declared entry, create and cache a ControlId from
(id, kind) with an empty name, check the recorded value-offset against the
values cursor's running offset (a mismatch aborts the whole decode), then
load the range. Returns the decoded map (or `Option.none` on abort) together
with every ControlId created, including the one of a failing entry. -/
def dInfoLoop : Nat → RBuf → RBuf → List ControlId → ControlInfoMap →
    Option ControlInfoMap × List ControlId
  | 0, _, _, ids, acc => (some acc, ids)
  | n + 1, eb, vb, ids, acc =>
    let r := eb.read ipaControlRangeEntrySize
    let cid : ControlId := ⟨parse32 r.1, "", parse32 (r.1.drop 4)⟩
    let ids1 := ids ++ [cid]
    if parse32 (r.1.drop 8) ≠ vb.pos then (Option.none, ids1)
    else
      let rg := loadControlRange cid.type vb
      dInfoLoop n r.2 rg.2 ids1 (acc ++ [(cid, rg.1)])

/-- `ControlSerializer::deserialize<ControlInfoMap>`: read and check the
header version, carve the entries and values regions from the header's
recorded sizes (empty map if the buffer is too short), run the entry loop,
and on success cache the map under the header's handle and register the
reverse identity→handle mapping. Returns (map, new state, buffer). -/
def deserializeInfoMap (s : ControlSerializer) (buf : RBuf) :
    ControlInfoMap × ControlSerializer × RBuf :=
  let h := buf.read ipaControlsHeaderSize
  let hdr := parseHeader h.1
  if hdr.version ≠ ipaControlsFormatVersion then ([], s, h.2)
  else
    let c1 := h.2.carveOut (usub64 hdr.dataOffset ipaControlsHeaderSize)
    let c2 := c1.2.carveOut (usub64 hdr.size hdr.dataOffset)
    if c2.2.ovf then ([], s, c2.2)
    else
      match dInfoLoop hdr.entries c1.1 c2.1 [] [] with
      | (Option.none, ids) => ([], { s with controlIds := s.controlIds ++ ids }, c2.2)
      | (some ctrls, ids) =>
        (ctrls,
         { s with
           controlIds := s.controlIds ++ ids,
           infoMaps := assocSet hdr.handle ctrls s.infoMaps,
           infoMapHandles := assocSet (.cached hdr.handle) hdr.handle s.infoMapHandles },
         c2.2)

/-- The entry loop of `ControlSerializer::deserialize<ControlList>`: read one
value-entry record per declared entry, check the recorded offset against the
values cursor (mismatch aborts), load the value by the record's kind code and
set it into the list keyed by id. -/
def dListLoop : Nat → RBuf → RBuf → List (Nat × ControlValue) →
    Option (List (Nat × ControlValue))
  | 0, _, _, acc => some acc
  | n + 1, eb, vb, acc =>
    let r := eb.read ipaControlValueEntrySize
    if parse32 (r.1.drop 12) ≠ vb.pos then Option.none
    else
      let v := loadControlValue (parse32 (r.1.drop 8)) vb
      dListLoop n r.2 v.2 (assocSet (parse32 r.1) v.1 acc)

/-- `ControlSerializer::deserialize<ControlList>`: read and check the header
version, carve the regions (empty list if the buffer is too short), resolve
a non-zero handle by scanning `infoMapHandles_` by value (unknown handle
aborts with an empty list), bind handle 0 to the global fallback catalog,
then run the entry loop. The serializer state is not mutated. -/
def deserializeList (s : ControlSerializer) (buf : RBuf) : ControlList × RBuf :=
  let h := buf.read ipaControlsHeaderSize
  let hdr := parseHeader h.1
  if hdr.version ≠ ipaControlsFormatVersion then (emptyControlList, h.2)
  else
    let c1 := h.2.carveOut (usub64 hdr.dataOffset ipaControlsHeaderSize)
    let c2 := c1.2.carveOut (usub64 hdr.size hdr.dataOffset)
    if c2.2.ovf then (emptyControlList, c2.2)
    else
      let src : Option IdSrc :=
        if hdr.handle ≠ 0 then
          match findByValue hdr.handle s.infoMapHandles with
          | Option.none => Option.none
          | some r => some (.ofMap r)
        else some .global
      match src with
      | Option.none => (emptyControlList, c2.2)
      | some src1 =>
        match dListLoop hdr.entries c1.1 c2.1 [] with
        | Option.none => (emptyControlList, c2.2)
        | some es => (⟨src1, es⟩, c2.2)

/-! ## Well-formedness

The machine-range side conditions under which the C++ objects these lists
model can exist at all: integer payloads within their signed width, ids
within `u32`, a range's values of the kind its `ControlId` declares, and a
total encoded size below 2^32 so the header's `u32` size fields do not
truncate. -/

/-- The payload fits the machine integer its kind names. -/
def valueWF : ControlValue → Bool
  | .vnone => true
  | .vbool _ => true
  | .vint32 v => decide (-2147483648 ≤ v ∧ v < 2147483648)
  | .vint64 v => decide (-9223372036854775808 ≤ v ∧ v < 9223372036854775808)

/-- A metadata-map entry whose id fits `u32` and whose range carries values
of the kind the `ControlId` declares. -/
def entryWF (e : ControlId × ControlRange) : Bool :=
  decide (e.1.id < 4294967296) && decide (e.1.type = e.2.min.type)
    && decide (e.1.type = e.2.max.type) && valueWF e.2.min && valueWF e.2.max

/-- A representable metadata map. -/
def mapWF (m : ControlInfoMap) : Bool :=
  m.all entryWF && decide (binarySizeInfoMap m < 4294967296)

/-- A representable value-list entry. -/
def listEntryWF (e : Nat × ControlValue) : Bool :=
  decide (e.1 < 4294967296) && valueWF e.2

/-- A representable value list. -/
def listWF (list : ControlList) : Bool :=
  list.entries.all listEntryWF && decide (binarySizeList list < 4294967296)

/-! ## Wire images

The byte regions a successful serialize call produces, described directly:
the entry records with their running value offsets, and the value payloads. -/

/-- The range-entry records of a map, with the values cursor starting at
`off`: each record holds (id, kind, running offset), the offset advancing by
the bytes the range actually stores. -/
def recordsBytesInfo : ControlInfoMap → Nat → List Nat
  | [], _ => []
  | (cid, r) :: rest, off =>
    le32 cid.id ++ le32 cid.type ++ le32 off
      ++ recordsBytesInfo rest (off + (storeRangeBytes r).length)

/-- The value payloads of a map, in entry order. -/
def valuesBytesInfo : ControlInfoMap → List Nat
  | [] => []
  | (_, r) :: rest => storeRangeBytes r ++ valuesBytesInfo rest

/-- The value-entry records of a list, with the values cursor starting at
`off`: (id, count = 1, kind, running offset). -/
def recordsBytesList : List (Nat × ControlValue) → Nat → List Nat
  | [], _ => []
  | (cid, v) :: rest, off =>
    le32 cid ++ le32 1 ++ le32 v.type ++ le32 off
      ++ recordsBytesList rest (off + (storeValueBytes v).length)

/-- The value payloads of a list, in entry order. -/
def valuesBytesList : List (Nat × ControlValue) → List Nat
  | [] => []
  | (_, v) :: rest => storeValueBytes v ++ valuesBytesList rest

/-- The ControlIds a map decode creates: same ids and kinds, empty names. -/
def decodedIdsInfo (m : ControlInfoMap) : List ControlId :=
  m.map (fun e => ⟨e.1.id, "", e.1.type⟩)

/-- The map a decode of this map's wire image reconstructs. -/
def decodedMapInfo (m : ControlInfoMap) : ControlInfoMap :=
  m.map (fun e => (⟨e.1.id, "", e.1.type⟩, e.2))

/-- The (id, kind, range-bounds) content of a map entry — what the
round-trip preserves (the name is not carried on the wire). -/
def entryContent (e : ControlId × ControlRange) : Nat × Nat × ControlRange :=
  (e.1.id, e.1.type, e.2)

/-- The accumulated entries of a successful list decode: each record's value
set into the list keyed by id, in record order. -/
def dListAcc (es : List (Nat × ControlValue)) (acc : List (Nat × ControlValue)) :
    List (Nat × ControlValue) :=
  es.foldl (fun a e => assocSet e.1 e.2 a) acc

/-- The full wire image of a map serialized with the given handle. -/
def wireBytesInfo (m : ControlInfoMap) (handle : Nat) : List Nat :=
  headerBytes
      ⟨ipaControlsFormatVersion, handle, m.length, binarySizeInfoMap m,
       ipaControlsHeaderSize + m.length * ipaControlRangeEntrySize⟩
    ++ recordsBytesInfo m 0
    ++ padTo ((m.map (fun c => binarySizeRange c.2)).sum) (valuesBytesInfo m)

/-- The full wire image of a list serialized with the given handle. -/
def wireBytesList (es : List (Nat × ControlValue)) (handle : Nat) : List Nat :=
  headerBytes
      ⟨ipaControlsFormatVersion, handle, es.length, binarySizeList ⟨.null, es⟩,
       ipaControlsHeaderSize + es.length * ipaControlValueEntrySize⟩
    ++ recordsBytesList es 0
    ++ padTo ((es.map (fun c => binarySizeValue c.2)).sum) (valuesBytesList es)

/-! ## Byte-level lemmas -/

theorem le32_length (n : Nat) : (le32 n).length = 4 := rfl

theorem le64_length (n : Nat) : (le64 n).length = 8 := by
  simp [le64, le32]

theorem parse32_le32_append (n : Nat) (rest : List Nat) :
    parse32 (le32 n ++ rest) = n % 4294967296 := by
  simp [le32, parse32, List.getD]
  omega

theorem parse32_le32 (n : Nat) : parse32 (le32 n) = n % 4294967296 := by
  have h := parse32_le32_append n []
  simpa using h

theorem le32_append_drop4 (n : Nat) (rest : List Nat) :
    (le32 n ++ rest).drop 4 = rest := by
  simp [le32]

theorem parse64_le64 (n : Nat) : parse64 (le64 n) = n % 18446744073709551616 := by
  unfold le64 parse64
  rw [show (4 : Nat) = (le32 (n % 4294967296)).length from (le32_length _).symm,
    List.take_left, List.drop_left, parse32_le32, parse32_le32]
  omega

theorem parse32_le32_set_ne (off j nb : Nat) (hoff : off < 4294967296) (hj : j < 4)
    (hnb : nb < 256) (hne : nb ≠ (le32 off).getD j 0) :
    parse32 ((le32 off).set j nb) ≠ off := by
  interval_cases j <;> simp [le32, parse32, List.getD] at hne ⊢ <;> omega

theorem u32ofInt_lt (v : Int) : u32ofInt v < 4294967296 := by
  unfold u32ofInt
  omega

theorem u64ofInt_lt (v : Int) : u64ofInt v < 18446744073709551616 := by
  unfold u64ofInt
  omega

theorem i32_roundtrip (v : Int) (h1 : -2147483648 ≤ v) (h2 : v < 2147483648) :
    i32ofU (u32ofInt v) = v := by
  unfold i32ofU u32ofInt
  split <;> omega

theorem i64_roundtrip (v : Int) (h1 : -9223372036854775808 ≤ v)
    (h2 : v < 9223372036854775808) : i64ofU (u64ofInt v) = v := by
  unfold i64ofU u64ofInt
  split <;> omega

theorem storeValueBytes_length (v : ControlValue) (h : valueWF v = true) :
    (storeValueBytes v).length ≤ binarySizeValue v := by
  cases v <;> simp [storeValueBytes, binarySizeValue, controlValueSize, ControlValue.type,
    le32_length, le64_length]

theorem storeRangeBytes_length (r : ControlRange) :
    (storeRangeBytes r).length ≤ binarySizeRange r := by
  have h1 : ∀ v : ControlValue, (storeValueBytes v).length ≤ binarySizeValue v := by
    intro v
    cases v <;> simp [storeValueBytes, binarySizeValue, controlValueSize, ControlValue.type,
      le32_length, le64_length]
  have h2 := h1 r.min
  have h3 := h1 r.max
  simp only [storeRangeBytes, binarySizeRange, List.length_append]
  omega

theorem valuesBytesInfo_length (m : ControlInfoMap) :
    (valuesBytesInfo m).length ≤ (m.map (fun c => binarySizeRange c.2)).sum := by
  induction m with
  | nil => simp [valuesBytesInfo]
  | cons e rest ih =>
    obtain ⟨cid, r⟩ := e
    have h := storeRangeBytes_length r
    simp only [valuesBytesInfo, List.map_cons, List.sum_cons, List.length_append]
    omega

theorem valuesBytesList_length (es : List (Nat × ControlValue)) :
    (valuesBytesList es).length ≤ (es.map (fun c => binarySizeValue c.2)).sum := by
  induction es with
  | nil => simp [valuesBytesList]
  | cons e rest ih =>
    obtain ⟨cid, v⟩ := e
    have h : ∀ w : ControlValue, (storeValueBytes w).length ≤ binarySizeValue w := by
      intro w
      cases w <;> simp [storeValueBytes, binarySizeValue, controlValueSize, ControlValue.type,
        le32_length, le64_length]
    have h2 := h v
    simp only [valuesBytesList, List.map_cons, List.sum_cons, List.length_append]
    omega

theorem recordsBytesInfo_length (m : ControlInfoMap) (off : Nat) :
    (recordsBytesInfo m off).length = m.length * ipaControlRangeEntrySize := by
  induction m generalizing off with
  | nil => simp [recordsBytesInfo]
  | cons e rest ih =>
    obtain ⟨cid, r⟩ := e
    simp [recordsBytesInfo, le32_length, ih, ipaControlRangeEntrySize]
    ring

theorem recordsBytesList_length (es : List (Nat × ControlValue)) (off : Nat) :
    (recordsBytesList es off).length = es.length * ipaControlValueEntrySize := by
  induction es generalizing off with
  | nil => simp [recordsBytesList]
  | cons e rest ih =>
    obtain ⟨cid, v⟩ := e
    simp [recordsBytesList, le32_length, ih, ipaControlValueEntrySize]
    ring

theorem padTo_length (n : Nat) (bs : List Nat) (h : bs.length ≤ n) :
    (padTo n bs).length = n := by
  simp [padTo]
  omega

theorem headerBytes_length (h : IpaControlsHeader) : (headerBytes h).length = 20 := by
  simp [headerBytes, le32_length]

theorem parseHeader_headerBytes (h : IpaControlsHeader) (rest : List Nat)
    (h1 : h.version < 4294967296) (h2 : h.handle < 4294967296)
    (h3 : h.entries < 4294967296) (h4 : h.size < 4294967296)
    (h5 : h.dataOffset < 4294967296) :
    parseHeader (headerBytes h ++ rest) = h := by
  obtain ⟨v, hd, e, sz, dOff⟩ := h
  simp only at h1 h2 h3 h4 h5
  simp [headerBytes, parseHeader, le32, parse32, List.getD]
  omega

theorem usub64_eq (a b : Nat) (hb : b ≤ a) (ha : a - b < 18446744073709551616) :
    usub64 a b = a - b := by
  unfold usub64
  omega

theorem WBuf.write_eq (c : Nat) (d bs : List Nat) (h : d.length + bs.length ≤ c) :
    WBuf.write ⟨c, d, false⟩ bs = ⟨c, d ++ bs, false⟩ := by
  simp [WBuf.write]
  omega

theorem WBuf.write_ovf (c : Nat) (d bs : List Nat) (h : c < d.length + bs.length) :
    WBuf.write ⟨c, d, false⟩ bs = ⟨c, d, true⟩ := by
  simp [WBuf.write]
  omega

theorem WBuf.carveOut_fits (c : Nat) (d : List Nat) (n : Nat) (h : d.length + n ≤ c) :
    WBuf.carveOut ⟨c, d, false⟩ n = (⟨n, [], false⟩, ⟨c, d ++ List.replicate n 0, false⟩) := by
  simp [WBuf.carveOut]
  omega

theorem WBuf.carveOut_ovf (c : Nat) (d : List Nat) (n : Nat) (h : c < d.length + n) :
    WBuf.carveOut ⟨c, d, false⟩ n = (⟨0, [], false⟩, ⟨c, d, true⟩) := by
  simp [WBuf.carveOut]
  omega

theorem RBuf.read_eq (d : List Nat) (p : Nat) (xs rest : List Nat)
    (hx : d.drop p = xs ++ rest) (hp : p ≤ d.length) :
    RBuf.read ⟨d, p, false⟩ xs.length = (xs, ⟨d, p + xs.length, false⟩) := by
  have hlen : d.length - p = xs.length + rest.length := by
    have := congrArg List.length hx
    simpa [List.length_drop] using this
  have hfit : p + xs.length ≤ d.length := by omega
  simp only [RBuf.read]
  rw [if_neg (by simp; omega)]
  rw [hx]
  rw [show xs.length = xs.length + 0 by omega]
  simp [List.take_append]

theorem RBuf.carveOut_take (d : List Nat) (p n : Nat) (h : p + n ≤ d.length) :
    RBuf.carveOut ⟨d, p, false⟩ n = (⟨(d.drop p).take n, 0, false⟩, ⟨d, p + n, false⟩) := by
  simp [RBuf.carveOut]
  omega

/-- The value store/load round trip at the byte level: reading back a stored
well-formed value at its position consumes exactly its stored bytes and
yields the value unchanged. -/
theorem loadControlValue_store (v : ControlValue) (hwf : valueWF v = true)
    (d : List Nat) (p : Nat) (post : List Nat)
    (hd : d.drop p = storeValueBytes v ++ post) (hp : p ≤ d.length) :
    loadControlValue v.type ⟨d, p, false⟩ =
      (v, ⟨d, p + (storeValueBytes v).length, false⟩) := by
  cases v with
  | vnone =>
    simp [loadControlValue, ControlValue.type, storeValueBytes]
  | vbool b =>
    have hr := RBuf.read_eq d p [if b then 1 else 0] post (by simpa [storeValueBytes] using hd) hp
    simp only [List.length_cons, List.length_nil] at hr
    simp only [loadControlValue, ControlValue.type, hr, storeValueBytes, List.length_cons,
      List.length_nil]
    cases b <;> simp
  | vint32 n =>
    have hr := RBuf.read_eq d p (le32 (u32ofInt n)) post
      (by simpa [storeValueBytes] using hd) hp
    rw [le32_length] at hr
    simp only [loadControlValue, ControlValue.type, hr, storeValueBytes, le32_length]
    rw [parse32_le32, Nat.mod_eq_of_lt (u32ofInt_lt n)]
    rw [i32_roundtrip n (by simp [valueWF] at hwf; omega) (by simp [valueWF] at hwf; omega)]
  | vint64 n =>
    have hr := RBuf.read_eq d p (le64 (u64ofInt n)) post
      (by simpa [storeValueBytes] using hd) hp
    rw [le64_length] at hr
    simp only [loadControlValue, ControlValue.type, hr, storeValueBytes, le64_length]
    rw [parse64_le64, Nat.mod_eq_of_lt (u64ofInt_lt n)]
    rw [i64_roundtrip n (by simp [valueWF] at hwf; omega) (by simp [valueWF] at hwf; omega)]

/-- The range store/load round trip. -/
theorem loadControlRange_store (r : ControlRange) (t : Nat)
    (hmin : t = r.min.type) (hmax : t = r.max.type)
    (hwfmin : valueWF r.min = true) (hwfmax : valueWF r.max = true)
    (d : List Nat) (p : Nat) (post : List Nat)
    (hd : d.drop p = storeRangeBytes r ++ post) (hp : p ≤ d.length) :
    loadControlRange t ⟨d, p, false⟩ =
      (r, ⟨d, p + (storeRangeBytes r).length, false⟩) := by
  obtain ⟨mn, mx⟩ := r
  simp only [storeRangeBytes] at hd ⊢
  simp only at hmin hmax hwfmin hwfmax
  subst hmin
  have hd1 : d.drop p = storeValueBytes mn ++ (storeValueBytes mx ++ post) := by
    simpa using hd
  have hltot : d.length - p
      = (storeValueBytes mn).length + ((storeValueBytes mx).length + post.length) := by
    have := congrArg List.length hd1
    simpa [List.length_drop] using this
  have h1 := loadControlValue_store mn hwfmin d p (storeValueBytes mx ++ post) hd1 hp
  have hp2 : p + (storeValueBytes mn).length ≤ d.length := by omega
  have hd2 : d.drop (p + (storeValueBytes mn).length) = storeValueBytes mx ++ post := by
    rw [← List.drop_drop, hd1, List.drop_left]
  have h2 := loadControlValue_store mx hwfmax d (p + (storeValueBytes mn).length) post hd2 hp2
  rw [← hmax] at h2
  simp only [loadControlRange, h1, h2]
  simp [Nat.add_assoc]

/-! ## Serialization: what the encode loops write -/

theorem storeValue_eq (v : ControlValue) (vc : Nat) (vd : List Nat)
    (h : vd.length + (storeValueBytes v).length ≤ vc) :
    storeValue v ⟨vc, vd, false⟩ = ⟨vc, vd ++ storeValueBytes v, false⟩ := by
  simp only [storeValue]
  exact WBuf.write_eq vc vd (storeValueBytes v) h

theorem storeRange_eq (r : ControlRange) (vc : Nat) (vd : List Nat)
    (h : vd.length + binarySizeRange r ≤ vc) :
    storeRange r ⟨vc, vd, false⟩ = ⟨vc, vd ++ storeRangeBytes r, false⟩ := by
  have hmin : ∀ w : ControlValue, (storeValueBytes w).length ≤ binarySizeValue w := by
    intro w
    cases w <;> simp [storeValueBytes, binarySizeValue, controlValueSize, ControlValue.type,
      le32_length, le64_length]
  have h1 := hmin r.min
  have h2 := hmin r.max
  simp only [binarySizeRange] at h
  simp only [storeRange]
  rw [storeValue_eq r.min vc vd (by omega)]
  rw [storeValue_eq r.max vc (vd ++ storeValueBytes r.min) (by simp; omega)]
  simp [storeRangeBytes]

theorem sInfoLoop_eq (m : ControlInfoMap) :
    ∀ (ec vc : Nat) (ed vd : List Nat),
    ed.length + m.length * ipaControlRangeEntrySize ≤ ec →
    vd.length + (m.map (fun c => binarySizeRange c.2)).sum ≤ vc →
    sInfoLoop m ⟨ec, ed, false⟩ ⟨vc, vd, false⟩ =
      (⟨ec, ed ++ recordsBytesInfo m vd.length, false⟩,
       ⟨vc, vd ++ valuesBytesInfo m, false⟩) := by
  induction m with
  | nil =>
    intro ec vc ed vd _ _
    simp [sInfoLoop, recordsBytesInfo, valuesBytesInfo]
  | cons e rest ih =>
    intro ec vc ed vd he hv
    obtain ⟨cid, r⟩ := e
    have hsr := storeRangeBytes_length r
    simp only [List.length_cons, List.map_cons, List.sum_cons] at he hv
    simp only [sInfoLoop]
    rw [WBuf.write_eq ec ed _ (by simp [le32_length, ipaControlRangeEntrySize] at he ⊢; omega)]
    rw [storeRange_eq r vc vd (by omega)]
    rw [ih ec vc _ _ (by simp [le32_length, ipaControlRangeEntrySize] at he ⊢; omega)
      (by simp; omega)]
    simp [recordsBytesInfo, valuesBytesInfo, List.append_assoc]

theorem sListLoop_eq (es : List (Nat × ControlValue)) :
    ∀ (ec vc : Nat) (ed vd : List Nat),
    ed.length + es.length * ipaControlValueEntrySize ≤ ec →
    vd.length + (es.map (fun c => binarySizeValue c.2)).sum ≤ vc →
    sListLoop es ⟨ec, ed, false⟩ ⟨vc, vd, false⟩ =
      (⟨ec, ed ++ recordsBytesList es vd.length, false⟩,
       ⟨vc, vd ++ valuesBytesList es, false⟩) := by
  induction es with
  | nil =>
    intro ec vc ed vd _ _
    simp [sListLoop, recordsBytesList, valuesBytesList]
  | cons e rest ih =>
    intro ec vc ed vd he hv
    obtain ⟨cid, v⟩ := e
    have hsv : (storeValueBytes v).length ≤ binarySizeValue v := by
      cases v <;> simp [storeValueBytes, binarySizeValue, controlValueSize, ControlValue.type,
        le32_length, le64_length]
    simp only [List.length_cons, List.map_cons, List.sum_cons] at he hv
    simp only [sListLoop]
    rw [WBuf.write_eq ec ed _ (by simp [le32_length, ipaControlValueEntrySize] at he ⊢; omega)]
    rw [storeValue_eq v vc vd (by omega)]
    rw [ih ec vc _ _ (by simp [le32_length, ipaControlValueEntrySize] at he ⊢; omega)
      (by simp; omega)]
    simp [recordsBytesList, valuesBytesList, List.append_assoc]

/-- A successful map serialization: with the buffer holding at least
`binarySize` free bytes, serialize returns 0, appends exactly the wire image
(header, entry records, values region) to the buffer, bumps the serial and
registers identity→handle. -/
theorem serializeInfoMap_success (s : ControlSerializer) (ref : MapRef)
    (m : ControlInfoMap) (c : Nat) (d : List Nat)
    (hcap : d.length + binarySizeInfoMap m ≤ c) :
    serializeInfoMap s ref m ⟨c, d, false⟩ =
      (0, ⟨c, d ++ wireBytesInfo m ((s.serial + 1) % 4294967296), false⟩,
       ⟨(s.serial + 1) % 4294967296,
        assocSet ref ((s.serial + 1) % 4294967296) s.infoMapHandles,
        s.infoMaps, s.controlIds⟩) := by
  have hrec := recordsBytesInfo_length m 0
  have hval := valuesBytesInfo_length m
  have hbs : binarySizeInfoMap m
      = ipaControlsHeaderSize + m.length * ipaControlRangeEntrySize
        + (m.map (fun c => binarySizeRange c.2)).sum := rfl
  simp only [binarySizeInfoMap, ipaControlsHeaderSize, ipaControlRangeEntrySize] at hcap
  simp only [serializeInfoMap]
  rw [WBuf.write_eq c d _ (by rw [headerBytes_length]; omega)]
  rw [WBuf.carveOut_fits c _ _
    (by simp [headerBytes_length, ipaControlRangeEntrySize]; omega)]
  rw [WBuf.carveOut_fits c _ _
    (by simp [headerBytes_length, ipaControlRangeEntrySize]; omega)]
  rw [sInfoLoop_eq m _ _ [] [] (by simp) (by simp)]
  simp only [List.length_nil, Bool.false_eq_true, or_self, if_false, List.nil_append]
  simp [wireBytesInfo, padTo, recordsBytesInfo_length, binarySizeInfoMap,
    ipaControlsHeaderSize, List.append_assoc]

/-- A successful list serialization with a resolved handle: appends exactly
the wire image and leaves the serializer state untouched. -/
theorem serializeList_success (s : ControlSerializer) (list : ControlList)
    (handle : Nat) (c : Nat) (d : List Nat)
    (hh : (match list.src with
           | .ofMap r => assocFind r s.infoMapHandles
           | _ => some 0) = some handle)
    (hcap : d.length + binarySizeList list ≤ c) :
    serializeList s list ⟨c, d, false⟩ =
      (0, ⟨c, d ++ wireBytesList list.entries handle, false⟩, s) := by
  have hrec := recordsBytesList_length list.entries 0
  have hval := valuesBytesList_length list.entries
  simp only [binarySizeList, ipaControlsHeaderSize, ipaControlValueEntrySize] at hcap
  simp only [serializeList, hh]
  rw [WBuf.write_eq c d _ (by rw [headerBytes_length]; omega)]
  rw [WBuf.carveOut_fits c _ _
    (by simp [headerBytes_length, ipaControlValueEntrySize]; omega)]
  rw [WBuf.carveOut_fits c _ _
    (by simp [headerBytes_length, ipaControlValueEntrySize]; omega)]
  rw [sListLoop_eq list.entries _ _ [] [] (by simp) (by simp)]
  simp only [List.length_nil, Bool.false_eq_true, or_self, if_false, List.nil_append]
  simp [wireBytesList, padTo, recordsBytesList_length, binarySizeList,
    ipaControlsHeaderSize, List.append_assoc]

/-- A map serialization into any buffer with fewer free bytes than
`binarySize` fails with `-ENOSPC`. -/
theorem serializeInfoMap_enospc (s : ControlSerializer) (ref : MapRef)
    (m : ControlInfoMap) (c : Nat) (hcap : c < binarySizeInfoMap m) :
    (serializeInfoMap s ref m ⟨c, [], false⟩).1 = -ENOSPC ∧
    (serializeInfoMap s ref m ⟨c, [], false⟩).2.2 =
      { s with serial := (s.serial + 1) % 4294967296 } := by
  simp only [binarySizeInfoMap, ipaControlsHeaderSize] at hcap
  by_cases h1 : c < 20
  · simp only [serializeInfoMap]
    rw [WBuf.write_ovf c [] _ (by simp [headerBytes_length]; omega)]
    simp [WBuf.carveOut]
  · by_cases h2 : c < 20 + m.length * ipaControlRangeEntrySize
    · simp only [serializeInfoMap]
      rw [WBuf.write_eq c [] _ (by simp [headerBytes_length]; omega)]
      simp [WBuf.carveOut, headerBytes_length, h2]
    · simp only [serializeInfoMap]
      rw [WBuf.write_eq c [] _ (by simp [headerBytes_length]; omega)]
      have h2a : 20 + m.length * ipaControlRangeEntrySize ≤ c := by omega
      have h3 : c < 20 + m.length * ipaControlRangeEntrySize
          + (m.map (fun x => binarySizeRange x.2)).sum := hcap
      simp [WBuf.carveOut, headerBytes_length, Nat.not_lt.mpr h2a, h3]

/-- Any `-ENOSPC` return from a map serialization leaves the three tables
unchanged but the serial counter incremented (the code bumps `serial_`
before the overflow check and never rolls it back). -/
theorem serializeInfoMap_enospc_state (s : ControlSerializer) (ref : MapRef)
    (m : ControlInfoMap) (buf : WBuf)
    (h : (serializeInfoMap s ref m buf).1 = -ENOSPC) :
    (serializeInfoMap s ref m buf).2.2 =
      { s with serial := (s.serial + 1) % 4294967296 } := by
  simp only [serializeInfoMap] at h ⊢
  split at h <;> split <;> simp_all [ENOSPC]

/-- A list serialization naming an unknown map returns `-ENOENT` with the
buffer and state untouched. -/
theorem serializeList_enoent (s : ControlSerializer) (list : ControlList)
    (buf : WBuf) (r : MapRef) (hr : list.src = .ofMap r)
    (hfind : assocFind r s.infoMapHandles = Option.none) :
    serializeList s list buf = (-ENOENT, buf, s) := by
  simp [serializeList, hr, hfind]

/-- A map decode whose header version differs from the supported constant
returns the empty map immediately, with the state untouched, whatever the
rest of the buffer holds. -/
theorem deserializeInfoMap_badversion (s : ControlSerializer) (buf : RBuf)
    (h : (parseHeader (buf.read ipaControlsHeaderSize).1).version
      ≠ ipaControlsFormatVersion) :
    deserializeInfoMap s buf = ([], s, (buf.read ipaControlsHeaderSize).2) := by
  simp [deserializeInfoMap, h]

/-- A list decode whose header version differs from the supported constant
returns the default-constructed list immediately. -/
theorem deserializeList_badversion (s : ControlSerializer) (buf : RBuf)
    (h : (parseHeader (buf.read ipaControlsHeaderSize).1).version
      ≠ ipaControlsFormatVersion) :
    deserializeList s buf = (emptyControlList, (buf.read ipaControlsHeaderSize).2) := by
  simp [deserializeList, h]

/-- A list decode whose non-zero header handle matches no value of the
identity→handle table returns the default-constructed (empty) list, whatever
else the buffer holds. -/
theorem deserializeList_unknown_handle (s : ControlSerializer) (buf : RBuf)
    (h0 : (parseHeader (buf.read ipaControlsHeaderSize).1).handle ≠ 0)
    (hfind : findByValue (parseHeader (buf.read ipaControlsHeaderSize).1).handle
      s.infoMapHandles = Option.none) :
    (deserializeList s buf).1 = emptyControlList := by
  simp only [deserializeList]
  split
  · rfl
  · split
    · rfl
    · simp [h0, hfind]

/-! ## Deserialization: the decode loops on wire images -/

theorem RBuf.read_eq_n (d : List Nat) (p n : Nat) (xs rest : List Nat)
    (hx : d.drop p = xs ++ rest) (hn : xs.length = n) (hp : p ≤ d.length) :
    RBuf.read ⟨d, p, false⟩ n = (xs, ⟨d, p + n, false⟩) := by
  subst hn
  exact RBuf.read_eq d p xs rest hx hp

/-- Processing the records of `m` from a well-formed wire image advances the
decode loop past them, appending the reconstructed ControlIds and entries,
whatever records and bytes follow. -/
theorem dInfoLoopSegment (m : ControlInfoMap) :
    ∀ (k : Nat) (eD : List Nat) (eP : Nat) (vD : List Nat) (vP : Nat)
      (ids : List ControlId) (acc : ControlInfoMap) (extra tailB : List Nat),
    m.all entryWF = true →
    vD.length < 4294967296 →
    eD.drop eP = recordsBytesInfo m vP ++ extra →
    eP ≤ eD.length →
    vD.drop vP = valuesBytesInfo m ++ tailB →
    vP ≤ vD.length →
    dInfoLoop (m.length + k) ⟨eD, eP, false⟩ ⟨vD, vP, false⟩ ids acc =
      dInfoLoop k ⟨eD, eP + m.length * ipaControlRangeEntrySize, false⟩
        ⟨vD, vP + (valuesBytesInfo m).length, false⟩
        (ids ++ decodedIdsInfo m) (acc ++ decodedMapInfo m) := by
  induction m with
  | nil =>
    intro k eD eP vD vP ids acc extra tailB _ _ _ _ _ _
    simp [decodedIdsInfo, decodedMapInfo, valuesBytesInfo]
  | cons e rest ih =>
    intro k eD eP vD vP ids acc extra tailB hwf hv32 he heP hval hvP
    obtain ⟨cid, r⟩ := e
    rw [List.all_cons] at hwf
    obtain ⟨hwfe, hwfrest⟩ := Bool.and_eq_true_iff.mp hwf
    simp only [entryWF, Bool.and_eq_true, decide_eq_true_eq] at hwfe
    obtain ⟨⟨⟨⟨hid, htmin⟩, htmax⟩, hwmin⟩, hwmax⟩ := hwfe
    -- the head record and the remaining records
    have hrec : recordsBytesInfo ((cid, r) :: rest) vP
        = (le32 cid.id ++ le32 cid.type ++ le32 vP)
          ++ recordsBytesInfo rest (vP + (storeRangeBytes r).length) := by
      simp [recordsBytesInfo, List.append_assoc]
    have he2 : eD.drop eP = (le32 cid.id ++ le32 cid.type ++ le32 vP)
        ++ (recordsBytesInfo rest (vP + (storeRangeBytes r).length) ++ extra) := by
      rw [he, hrec, List.append_assoc]
    have hxlen : (le32 cid.id ++ le32 cid.type ++ le32 vP).length
        = ipaControlRangeEntrySize := by
      simp [le32_length, ipaControlRangeEntrySize]
    have hread := RBuf.read_eq_n eD eP ipaControlRangeEntrySize _ _ he2 hxlen heP
    -- lengths available for later bounds
    have helen : eD.length - eP = 12
        + ((recordsBytesInfo rest (vP + (storeRangeBytes r).length)).length + extra.length) := by
      have hh := congrArg List.length he2
      rw [List.length_drop] at hh
      simp [le32_length] at hh
      omega
    have hvlen : vD.length - vP = (storeRangeBytes r).length
        + ((valuesBytesInfo rest).length + tailB.length) := by
      have hh := congrArg List.length hval
      rw [List.length_drop] at hh
      simp [valuesBytesInfo] at hh
      omega
    -- parse the record fields
    have hparse_id : parse32 (le32 cid.id ++ le32 cid.type ++ le32 vP) = cid.id := by
      rw [List.append_assoc, parse32_le32_append, Nat.mod_eq_of_lt hid]
    have htype_le : cid.type < 4294967296 := by
      cases hr : r.min with
      | vnone => rw [htmin, hr] ; simp [ControlValue.type]
      | vbool b => rw [htmin, hr] ; simp [ControlValue.type]
      | vint32 v => rw [htmin, hr] ; simp [ControlValue.type]
      | vint64 v => rw [htmin, hr] ; simp [ControlValue.type]
    have hdrop4 : (le32 cid.id ++ le32 cid.type ++ le32 vP).drop 4
        = le32 cid.type ++ le32 vP := by
      rw [List.append_assoc]
      exact le32_append_drop4 _ _
    have hparse_type : parse32 ((le32 cid.id ++ le32 cid.type ++ le32 vP).drop 4)
        = cid.type := by
      rw [hdrop4, parse32_le32_append, Nat.mod_eq_of_lt htype_le]
    have hdrop8 : (le32 cid.id ++ le32 cid.type ++ le32 vP).drop 8
        = le32 vP := by
      rw [show (8 : Nat) = 4 + 4 from rfl, ← List.drop_drop, hdrop4]
      exact le32_append_drop4 _ _
    have hparse_off : parse32 ((le32 cid.id ++ le32 cid.type ++ le32 vP).drop 8) = vP := by
      rw [hdrop8, parse32_le32, Nat.mod_eq_of_lt (by omega)]
    -- the range loads back
    have hval2 : vD.drop vP = storeRangeBytes r ++ (valuesBytesInfo rest ++ tailB) := by
      rw [hval]
      simp [valuesBytesInfo, storeRangeBytes, List.append_assoc]
    have hload := loadControlRange_store r cid.type htmin htmax hwmin hwmax vD vP
      (valuesBytesInfo rest ++ tailB) hval2 hvP
    -- one step of the loop
    rw [show ((cid, r) :: rest).length + k = ((rest.length + k) + 1) from by simp; omega]
    simp only [dInfoLoop, hread, hparse_off, hparse_id, hparse_type, hload]
    rw [if_neg (by omega)]
    have he3 : eD.drop (eP + ipaControlRangeEntrySize)
        = recordsBytesInfo rest (vP + (storeRangeBytes r).length) ++ extra := by
      rw [← List.drop_drop, he2, ← hxlen, List.drop_left]
    have hep3 : eP + ipaControlRangeEntrySize ≤ eD.length := by
      simp [ipaControlRangeEntrySize]
      omega
    have hv3 : vD.drop (vP + (storeRangeBytes r).length)
        = valuesBytesInfo rest ++ tailB := by
      rw [← List.drop_drop, hval2, List.drop_left]
    have hvp3 : vP + (storeRangeBytes r).length ≤ vD.length := by omega
    rw [ih k eD (eP + ipaControlRangeEntrySize) vD (vP + (storeRangeBytes r).length)
      (ids ++ [(⟨cid.id, "", cid.type⟩ : ControlId)])
      (acc ++ [((⟨cid.id, "", cid.type⟩ : ControlId), r)])
      extra tailB hwfrest hv32 he3 hep3 hv3 hvp3]
    simp [decodedIdsInfo, decodedMapInfo, valuesBytesInfo, ipaControlRangeEntrySize,
      Nat.succ_mul, Nat.add_assoc, List.append_assoc]
    ring_nf

/-- Unfolding one application of the list-decode accumulator. -/
theorem dListAcc_cons (i : Nat) (v : ControlValue) (rest : List (Nat × ControlValue))
    (acc : List (Nat × ControlValue)) :
    dListAcc ((i, v) :: rest) acc = dListAcc rest (assocSet i v acc) := rfl

/-- Processing the records of `es` from a well-formed wire image advances the
list-decode loop past them, folding the decoded values into the accumulator,
whatever records and bytes follow. -/
theorem dListLoopSegment (es : List (Nat × ControlValue)) :
    ∀ (k : Nat) (eD : List Nat) (eP : Nat) (vD : List Nat) (vP : Nat)
      (acc : List (Nat × ControlValue)) (extra tailB : List Nat),
    es.all listEntryWF = true →
    vD.length < 4294967296 →
    eD.drop eP = recordsBytesList es vP ++ extra →
    eP ≤ eD.length →
    vD.drop vP = valuesBytesList es ++ tailB →
    vP ≤ vD.length →
    dListLoop (es.length + k) ⟨eD, eP, false⟩ ⟨vD, vP, false⟩ acc =
      dListLoop k ⟨eD, eP + es.length * ipaControlValueEntrySize, false⟩
        ⟨vD, vP + (valuesBytesList es).length, false⟩ (dListAcc es acc) := by
  induction es with
  | nil =>
    intro k eD eP vD vP acc extra tailB _ _ _ _ _ _
    simp [dListAcc, valuesBytesList]
  | cons e rest ih =>
    intro k eD eP vD vP acc extra tailB hwf hv32 he heP hval hvP
    obtain ⟨i, v⟩ := e
    rw [List.all_cons] at hwf
    obtain ⟨hwfe, hwfrest⟩ := Bool.and_eq_true_iff.mp hwf
    simp only [listEntryWF, Bool.and_eq_true, decide_eq_true_eq] at hwfe
    obtain ⟨hid, hwv⟩ := hwfe
    have hrec : recordsBytesList ((i, v) :: rest) vP
        = (le32 i ++ le32 1 ++ le32 v.type ++ le32 vP)
          ++ recordsBytesList rest (vP + (storeValueBytes v).length) := by
      simp [recordsBytesList, List.append_assoc]
    have he2 : eD.drop eP = (le32 i ++ le32 1 ++ le32 v.type ++ le32 vP)
        ++ (recordsBytesList rest (vP + (storeValueBytes v).length) ++ extra) := by
      rw [he, hrec, List.append_assoc]
    have hxlen : (le32 i ++ le32 1 ++ le32 v.type ++ le32 vP).length
        = ipaControlValueEntrySize := by
      simp [le32_length, ipaControlValueEntrySize]
    have hread := RBuf.read_eq_n eD eP ipaControlValueEntrySize _ _ he2 hxlen heP
    have helen : eD.length - eP = 16
        + ((recordsBytesList rest (vP + (storeValueBytes v).length)).length + extra.length) := by
      have hh := congrArg List.length he2
      rw [List.length_drop] at hh
      simp [le32_length] at hh
      omega
    have hvlen : vD.length - vP = (storeValueBytes v).length
        + ((valuesBytesList rest).length + tailB.length) := by
      have hh := congrArg List.length hval
      rw [List.length_drop] at hh
      simp [valuesBytesList] at hh
      omega
    have hparse_id : parse32 (le32 i ++ le32 1 ++ le32 v.type ++ le32 vP) = i := by
      rw [List.append_assoc, List.append_assoc, parse32_le32_append, Nat.mod_eq_of_lt hid]
    have htype_le : v.type < 4294967296 := by
      cases v <;> simp [ControlValue.type]
    have hdrop4 : (le32 i ++ le32 1 ++ le32 v.type ++ le32 vP).drop 4
        = le32 1 ++ le32 v.type ++ le32 vP := by
      rw [List.append_assoc, List.append_assoc]
      exact le32_append_drop4 _ _
    have hdrop8 : (le32 i ++ le32 1 ++ le32 v.type ++ le32 vP).drop 8
        = le32 v.type ++ le32 vP := by
      rw [show (8 : Nat) = 4 + 4 from rfl, ← List.drop_drop, hdrop4, List.append_assoc]
      exact le32_append_drop4 _ _
    have hparse_type : parse32 ((le32 i ++ le32 1 ++ le32 v.type ++ le32 vP).drop 8)
        = v.type := by
      rw [hdrop8, parse32_le32_append, Nat.mod_eq_of_lt htype_le]
    have hdrop12 : (le32 i ++ le32 1 ++ le32 v.type ++ le32 vP).drop 12
        = le32 vP := by
      rw [show (12 : Nat) = 8 + 4 from rfl, ← List.drop_drop, hdrop8]
      exact le32_append_drop4 _ _
    have hparse_off : parse32 ((le32 i ++ le32 1 ++ le32 v.type ++ le32 vP).drop 12)
        = vP := by
      rw [hdrop12, parse32_le32, Nat.mod_eq_of_lt (by omega)]
    have hval2 : vD.drop vP = storeValueBytes v ++ (valuesBytesList rest ++ tailB) := by
      rw [hval]
      simp [valuesBytesList, List.append_assoc]
    have hload := loadControlValue_store v hwv vD vP (valuesBytesList rest ++ tailB) hval2 hvP
    rw [show ((i, v) :: rest).length + k = ((rest.length + k) + 1) from by simp; omega]
    simp only [dListLoop, hread, hparse_off, hparse_id, hparse_type, hload]
    rw [if_neg (by omega)]
    have he3 : eD.drop (eP + ipaControlValueEntrySize)
        = recordsBytesList rest (vP + (storeValueBytes v).length) ++ extra := by
      rw [← List.drop_drop, he2, ← hxlen, List.drop_left]
    have hep3 : eP + ipaControlValueEntrySize ≤ eD.length := by
      simp [ipaControlValueEntrySize]
      omega
    have hv3 : vD.drop (vP + (storeValueBytes v).length)
        = valuesBytesList rest ++ tailB := by
      rw [← List.drop_drop, hval2, List.drop_left]
    have hvp3 : vP + (storeValueBytes v).length ≤ vD.length := by omega
    rw [ih k eD (eP + ipaControlValueEntrySize) vD (vP + (storeValueBytes v).length)
      (assocSet i v acc) extra tailB hwfrest hv32 he3 hep3 hv3 hvp3]
    rw [dListAcc_cons]
    simp [valuesBytesList, ipaControlValueEntrySize, Nat.succ_mul, Nat.add_assoc]
    ring_nf

/-! ## Splitting wire images at one record -/

theorem set_append_right {α : Type} (a b : List α) (k : Nat) (x : α)
    (hk : a.length ≤ k) : (a ++ b).set k x = a ++ b.set (k - a.length) x := by
  rw [List.set_append, if_neg (by omega)]

theorem set_append_left {α : Type} (a b : List α) (k : Nat) (x : α)
    (hk : k < a.length) : (a ++ b).set k x = a.set k x ++ b := by
  rw [List.set_append, if_pos hk]

theorem getD_append_right2 {α : Type} (a b : List α) (k : Nat) (x : α)
    (hk : a.length ≤ k) : (a ++ b).getD k x = b.getD (k - a.length) x :=
  List.getD_append_right a b x k hk

theorem recordsBytesInfo_append (m1 m2 : ControlInfoMap) (off : Nat) :
    recordsBytesInfo (m1 ++ m2) off
      = recordsBytesInfo m1 off ++ recordsBytesInfo m2 (off + (valuesBytesInfo m1).length) := by
  induction m1 generalizing off with
  | nil => simp [recordsBytesInfo, valuesBytesInfo]
  | cons e rest ih =>
    obtain ⟨cid, r⟩ := e
    simp [recordsBytesInfo, valuesBytesInfo, ih, List.append_assoc, Nat.add_assoc]

theorem valuesBytesInfo_append (m1 m2 : ControlInfoMap) :
    valuesBytesInfo (m1 ++ m2) = valuesBytesInfo m1 ++ valuesBytesInfo m2 := by
  induction m1 with
  | nil => simp [valuesBytesInfo]
  | cons e rest ih =>
    obtain ⟨cid, r⟩ := e
    simp [valuesBytesInfo, ih]

theorem recordsBytesList_append (m1 m2 : List (Nat × ControlValue)) (off : Nat) :
    recordsBytesList (m1 ++ m2) off
      = recordsBytesList m1 off ++ recordsBytesList m2 (off + (valuesBytesList m1).length) := by
  induction m1 generalizing off with
  | nil => simp [recordsBytesList, valuesBytesList]
  | cons e rest ih =>
    obtain ⟨i, v⟩ := e
    simp [recordsBytesList, valuesBytesList, ih, List.append_assoc, Nat.add_assoc]

theorem valuesBytesList_append (m1 m2 : List (Nat × ControlValue)) :
    valuesBytesList (m1 ++ m2) = valuesBytesList m1 ++ valuesBytesList m2 := by
  induction m1 with
  | nil => simp [valuesBytesList]
  | cons e rest ih =>
    obtain ⟨i, v⟩ := e
    simp [valuesBytesList, ih]

theorem all_append_left {α : Type} (f : α → Bool) (m1 m2 : List α)
    (h : (m1 ++ m2).all f = true) : m1.all f = true := by
  rw [List.all_append, Bool.and_eq_true] at h
  exact h.1

theorem all_append_right {α : Type} (f : α → Bool) (m1 m2 : List α)
    (h : (m1 ++ m2).all f = true) : m2.all f = true := by
  rw [List.all_append, Bool.and_eq_true] at h
  exact h.2

/-! ## Deserialization of full wire images -/

theorem wireBytesInfo_length (m : ControlInfoMap) (h : Nat) :
    (wireBytesInfo m h).length = binarySizeInfoMap m := by
  simp only [wireBytesInfo, List.length_append, headerBytes_length,
    recordsBytesInfo_length, padTo_length _ _ (valuesBytesInfo_length m),
    binarySizeInfoMap, ipaControlsHeaderSize]

theorem wireBytesList_length (es : List (Nat × ControlValue)) (h : Nat) :
    (wireBytesList es h).length = binarySizeList ⟨.null, es⟩ := by
  simp only [wireBytesList, List.length_append, headerBytes_length,
    recordsBytesList_length, padTo_length _ _ (valuesBytesList_length es),
    binarySizeList, ipaControlsHeaderSize]

theorem mapWF_parts (m : ControlInfoMap) (hwf : mapWF m = true) :
    m.all entryWF = true ∧ binarySizeInfoMap m < 4294967296 := by
  rw [mapWF, Bool.and_eq_true, decide_eq_true_eq] at hwf
  exact hwf

theorem listWF_parts (list : ControlList) (hwf : listWF list = true) :
    list.entries.all listEntryWF = true ∧ binarySizeList list < 4294967296 := by
  rw [listWF, Bool.and_eq_true, decide_eq_true_eq] at hwf
  exact hwf

/-- `parseHeader` recovers a header whose fields fit `u32`. -/
theorem parseHeader_headerBytes_self (h : IpaControlsHeader)
    (h1 : h.version < 4294967296) (h2 : h.handle < 4294967296)
    (h3 : h.entries < 4294967296) (h4 : h.size < 4294967296)
    (h5 : h.dataOffset < 4294967296) :
    parseHeader (headerBytes h) = h := by
  have := parseHeader_headerBytes h [] h1 h2 h3 h4 h5
  simpa using this

theorem deserializeInfoMap_decomp (s : ControlSerializer) (W hdrB records vals : List Nat)
    (hdr : IpaControlsHeader)
    (hW : W = hdrB ++ (records ++ vals))
    (hhdrB : hdrB.length = ipaControlsHeaderSize)
    (hparse : parseHeader hdrB = hdr)
    (hver : hdr.version = ipaControlsFormatVersion)
    (hoff1 : 20 ≤ hdr.dataOffset) (hoff2 : hdr.dataOffset ≤ hdr.size)
    (hsz : hdr.size < 4294967296)
    (hrec : records.length = hdr.dataOffset - 20)
    (hvals : vals.length = hdr.size - hdr.dataOffset) :
    deserializeInfoMap s ⟨W, 0, false⟩ =
      (match dInfoLoop hdr.entries ⟨records, 0, false⟩ ⟨vals, 0, false⟩ [] [] with
       | (Option.none, ids) =>
         ([], { s with controlIds := s.controlIds ++ ids }, ⟨W, hdr.size, false⟩)
       | (some ctrls, ids) =>
         (ctrls,
          { s with
            controlIds := s.controlIds ++ ids
            infoMaps := assocSet hdr.handle ctrls s.infoMaps
            infoMapHandles := assocSet (.cached hdr.handle) hdr.handle s.infoMapHandles },
          ⟨W, hdr.size, false⟩)) := by
  have hWlen : W.length = hdr.size := by
    rw [hW]
    simp [hhdrB, hrec, hvals, ipaControlsHeaderSize]
    omega
  have hread := RBuf.read_eq_n W 0 ipaControlsHeaderSize hdrB (records ++ vals)
    (by rw [hW]; simp) hhdrB (by omega)
  have hc1 : RBuf.carveOut ⟨W, 0 + ipaControlsHeaderSize, false⟩ (hdr.dataOffset - 20)
      = (⟨records, 0, false⟩, ⟨W, 0 + ipaControlsHeaderSize + (hdr.dataOffset - 20), false⟩) := by
    rw [RBuf.carveOut_take W _ _ (by simp [ipaControlsHeaderSize]; omega)]
    have hdrop : W.drop (0 + ipaControlsHeaderSize) = records ++ vals := by
      rw [hW, ← hhdrB]
      simp [List.drop_left]
    rw [hdrop, ← hrec, List.take_left]
  have hc2 : RBuf.carveOut ⟨W, 0 + ipaControlsHeaderSize + (hdr.dataOffset - 20), false⟩
      (hdr.size - hdr.dataOffset)
      = (⟨vals, 0, false⟩,
         ⟨W, 0 + ipaControlsHeaderSize + (hdr.dataOffset - 20) + (hdr.size - hdr.dataOffset),
          false⟩) := by
    rw [RBuf.carveOut_take W _ _ (by simp [ipaControlsHeaderSize]; omega)]
    have hdrop : W.drop (0 + ipaControlsHeaderSize + (hdr.dataOffset - 20))
        = vals := by
      rw [show 0 + ipaControlsHeaderSize + (hdr.dataOffset - 20)
          = (hdrB ++ records).length from by simp [hhdrB, hrec, ipaControlsHeaderSize]]
      rw [hW, ← List.append_assoc, List.drop_left]
    rw [hdrop, ← hvals, List.take_length]
  have hu1 : usub64 hdr.dataOffset ipaControlsHeaderSize = hdr.dataOffset - 20 := by
    rw [show ipaControlsHeaderSize = 20 from rfl]
    exact usub64_eq _ _ hoff1 (by omega)
  have hu2 : usub64 hdr.size hdr.dataOffset = hdr.size - hdr.dataOffset :=
    usub64_eq _ _ hoff2 (by omega)
  simp only [deserializeInfoMap, hread, hparse, hver, hu1, hu2, hc1, hc2]
  rw [if_neg (by simp)]
  have hpos : 0 + ipaControlsHeaderSize + (hdr.dataOffset - 20) + (hdr.size - hdr.dataOffset)
      = hdr.size := by
    simp [ipaControlsHeaderSize]
    omega
  rw [hpos]
  rfl

theorem deserializeList_decomp (s : ControlSerializer) (W hdrB records vals : List Nat)
    (hdr : IpaControlsHeader)
    (hW : W = hdrB ++ (records ++ vals))
    (hhdrB : hdrB.length = ipaControlsHeaderSize)
    (hparse : parseHeader hdrB = hdr)
    (hver : hdr.version = ipaControlsFormatVersion)
    (hoff1 : 20 ≤ hdr.dataOffset) (hoff2 : hdr.dataOffset ≤ hdr.size)
    (hsz : hdr.size < 4294967296)
    (hrec : records.length = hdr.dataOffset - 20)
    (hvals : vals.length = hdr.size - hdr.dataOffset) :
    deserializeList s ⟨W, 0, false⟩ =
      (match (if hdr.handle ≠ 0 then
                match findByValue hdr.handle s.infoMapHandles with
                | Option.none => Option.none
                | some r => some (IdSrc.ofMap r)
              else some IdSrc.global) with
       | Option.none => (emptyControlList, ⟨W, hdr.size, false⟩)
       | some src1 =>
         match dListLoop hdr.entries ⟨records, 0, false⟩ ⟨vals, 0, false⟩ [] with
         | Option.none => (emptyControlList, ⟨W, hdr.size, false⟩)
         | some es => (⟨src1, es⟩, ⟨W, hdr.size, false⟩)) := by
  have hWlen : W.length = hdr.size := by
    rw [hW]
    simp [hhdrB, hrec, hvals, ipaControlsHeaderSize]
    omega
  have hread := RBuf.read_eq_n W 0 ipaControlsHeaderSize hdrB (records ++ vals)
    (by rw [hW]; simp) hhdrB (by omega)
  have hc1 : RBuf.carveOut ⟨W, 0 + ipaControlsHeaderSize, false⟩ (hdr.dataOffset - 20)
      = (⟨records, 0, false⟩, ⟨W, 0 + ipaControlsHeaderSize + (hdr.dataOffset - 20), false⟩) := by
    rw [RBuf.carveOut_take W _ _ (by simp [ipaControlsHeaderSize]; omega)]
    have hdrop : W.drop (0 + ipaControlsHeaderSize) = records ++ vals := by
      rw [hW, ← hhdrB]
      simp [List.drop_left]
    rw [hdrop, ← hrec, List.take_left]
  have hc2 : RBuf.carveOut ⟨W, 0 + ipaControlsHeaderSize + (hdr.dataOffset - 20), false⟩
      (hdr.size - hdr.dataOffset)
      = (⟨vals, 0, false⟩,
         ⟨W, 0 + ipaControlsHeaderSize + (hdr.dataOffset - 20) + (hdr.size - hdr.dataOffset),
          false⟩) := by
    rw [RBuf.carveOut_take W _ _ (by simp [ipaControlsHeaderSize]; omega)]
    have hdrop : W.drop (0 + ipaControlsHeaderSize + (hdr.dataOffset - 20))
        = vals := by
      rw [show 0 + ipaControlsHeaderSize + (hdr.dataOffset - 20)
          = (hdrB ++ records).length from by simp [hhdrB, hrec, ipaControlsHeaderSize]]
      rw [hW, ← List.append_assoc, List.drop_left]
    rw [hdrop, ← hvals, List.take_length]
  have hu1 : usub64 hdr.dataOffset ipaControlsHeaderSize = hdr.dataOffset - 20 := by
    rw [show ipaControlsHeaderSize = 20 from rfl]
    exact usub64_eq _ _ hoff1 (by omega)
  have hu2 : usub64 hdr.size hdr.dataOffset = hdr.size - hdr.dataOffset :=
    usub64_eq _ _ hoff2 (by omega)
  simp only [deserializeList, hread, hparse, hver, hu1, hu2, hc1, hc2]
  rw [if_neg (by simp)]
  have hpos : 0 + ipaControlsHeaderSize + (hdr.dataOffset - 20) + (hdr.size - hdr.dataOffset)
      = hdr.size := by
    simp [ipaControlsHeaderSize]
    omega
  rw [hpos]
  rfl

/-- The map header a serialize call emits. -/
def infoHeader (m : ControlInfoMap) (h : Nat) : IpaControlsHeader :=
  ⟨ipaControlsFormatVersion, h, m.length, binarySizeInfoMap m,
   ipaControlsHeaderSize + m.length * ipaControlRangeEntrySize⟩

/-- The list header a serialize call emits. -/
def listHeader (es : List (Nat × ControlValue)) (h : Nat) : IpaControlsHeader :=
  ⟨ipaControlsFormatVersion, h, es.length, binarySizeList ⟨.null, es⟩,
   ipaControlsHeaderSize + es.length * ipaControlValueEntrySize⟩

theorem infoHeader_fields (m : ControlInfoMap) (h : Nat)
    (hsize : binarySizeInfoMap m < 4294967296) (hh : h < 4294967296) :
    parseHeader (headerBytes (infoHeader m h)) = infoHeader m h := by
  have hbs : binarySizeInfoMap m
      = 20 + m.length * 12 + (m.map (fun c => binarySizeRange c.2)).sum := rfl
  apply parseHeader_headerBytes_self
  · simp [infoHeader, ipaControlsFormatVersion]
  · exact hh
  · simp only [infoHeader]
    omega
  · exact hsize
  · simp only [infoHeader, ipaControlsHeaderSize, ipaControlRangeEntrySize]
    omega

theorem listHeader_fields (es : List (Nat × ControlValue)) (h : Nat)
    (hsize : binarySizeList ⟨.null, es⟩ < 4294967296) (hh : h < 4294967296) :
    parseHeader (headerBytes (listHeader es h)) = listHeader es h := by
  have hbs : binarySizeList ⟨.null, es⟩
      = 20 + es.length * 16 + (es.map (fun c => binarySizeValue c.2)).sum := rfl
  apply parseHeader_headerBytes_self
  · simp [listHeader, ipaControlsFormatVersion]
  · exact hh
  · simp only [listHeader]
    omega
  · exact hsize
  · simp only [listHeader, ipaControlsHeaderSize, ipaControlValueEntrySize]
    omega

/-- Decoding the wire image of a well-formed map reconstructs it exactly
(ids and kinds with empty names), caches it under the image's handle and
registers the reverse mapping; the created ControlIds are appended to the
catalog store. -/
theorem deserializeInfoMap_of_wire (s : ControlSerializer) (m : ControlInfoMap) (h : Nat)
    (hwf : mapWF m = true) (hh : h < 4294967296) :
    deserializeInfoMap s ⟨wireBytesInfo m h, 0, false⟩ =
      (decodedMapInfo m,
       { s with
         controlIds := s.controlIds ++ decodedIdsInfo m
         infoMaps := assocSet h (decodedMapInfo m) s.infoMaps
         infoMapHandles := assocSet (.cached h) h s.infoMapHandles },
       ⟨wireBytesInfo m h, binarySizeInfoMap m, false⟩) := by
  obtain ⟨hall, hsize⟩ := mapWF_parts m hwf
  have hbs : binarySizeInfoMap m
      = 20 + m.length * 12 + (m.map (fun c => binarySizeRange c.2)).sum := rfl
  have hvl := valuesBytesInfo_length m
  have hdec := deserializeInfoMap_decomp s (wireBytesInfo m h)
    (headerBytes (infoHeader m h)) (recordsBytesInfo m 0)
    (padTo ((m.map (fun c => binarySizeRange c.2)).sum) (valuesBytesInfo m))
    (infoHeader m h)
    (by simp [wireBytesInfo, infoHeader, List.append_assoc])
    (by rw [headerBytes_length]; rfl)
    (infoHeader_fields m h hsize hh)
    (by simp [infoHeader])
    (by simp [infoHeader, ipaControlsHeaderSize])
    (by simp only [infoHeader, ipaControlsHeaderSize, ipaControlRangeEntrySize]; omega)
    (by simp only [infoHeader]; exact hsize)
    (by simp only [infoHeader, ipaControlsHeaderSize, ipaControlRangeEntrySize,
          recordsBytesInfo_length]; omega)
    (by rw [padTo_length _ _ hvl]; simp only [infoHeader, ipaControlsHeaderSize,
          ipaControlRangeEntrySize]; omega)
  have hloop : dInfoLoop m.length ⟨recordsBytesInfo m 0, 0, false⟩
      ⟨padTo ((m.map (fun c => binarySizeRange c.2)).sum) (valuesBytesInfo m), 0, false⟩ [] []
      = (some (decodedMapInfo m), decodedIdsInfo m) := by
    have hpfx := dInfoLoopSegment m 0 (recordsBytesInfo m 0) 0
      (padTo ((m.map (fun c => binarySizeRange c.2)).sum) (valuesBytesInfo m)) 0 [] [] []
      (List.replicate ((m.map (fun c => binarySizeRange c.2)).sum
        - (valuesBytesInfo m).length) 0)
      hall
      (by rw [padTo_length _ _ hvl]; omega)
      (by simp)
      (by simp)
      (by simp [padTo])
      (by simp)
    simpa [dInfoLoop] using hpfx
  rw [hdec]
  simp only [infoHeader, hloop]

/-- Decoding the wire image of a well-formed list with wire handle 0 binds
the result to the global fallback catalog and reconstructs the entries; the
serializer state is read but never written by a list decode. -/
theorem deserializeList_of_wire0 (s : ControlSerializer) (es : List (Nat × ControlValue))
    (hwf : listWF ⟨.null, es⟩ = true) :
    deserializeList s ⟨wireBytesList es 0, 0, false⟩ =
      (⟨.global, dListAcc es []⟩,
       ⟨wireBytesList es 0, binarySizeList ⟨.null, es⟩, false⟩) := by
  obtain ⟨hall, hsize⟩ := listWF_parts _ hwf
  have hbs : binarySizeList ⟨.null, es⟩
      = 20 + es.length * 16 + (es.map (fun c => binarySizeValue c.2)).sum := rfl
  have hvl := valuesBytesList_length es
  have hdec := deserializeList_decomp s (wireBytesList es 0)
    (headerBytes (listHeader es 0)) (recordsBytesList es 0)
    (padTo ((es.map (fun c => binarySizeValue c.2)).sum) (valuesBytesList es))
    (listHeader es 0)
    (by simp [wireBytesList, listHeader, List.append_assoc])
    (by rw [headerBytes_length]; rfl)
    (listHeader_fields es 0 hsize (by omega))
    (by simp [listHeader])
    (by simp [listHeader, ipaControlsHeaderSize])
    (by simp only [listHeader, ipaControlsHeaderSize, ipaControlValueEntrySize]; omega)
    (by simp only [listHeader]; exact hsize)
    (by simp only [listHeader, ipaControlsHeaderSize, ipaControlValueEntrySize,
          recordsBytesList_length]; omega)
    (by rw [padTo_length _ _ hvl]; simp only [listHeader, ipaControlsHeaderSize,
          ipaControlValueEntrySize]; omega)
  have hloop : dListLoop es.length ⟨recordsBytesList es 0, 0, false⟩
      ⟨padTo ((es.map (fun c => binarySizeValue c.2)).sum) (valuesBytesList es), 0, false⟩ []
      = some (dListAcc es []) := by
    have hpfx := dListLoopSegment es 0 (recordsBytesList es 0) 0
      (padTo ((es.map (fun c => binarySizeValue c.2)).sum) (valuesBytesList es)) 0 [] []
      (List.replicate ((es.map (fun c => binarySizeValue c.2)).sum
        - (valuesBytesList es).length) 0)
      hall
      (by rw [padTo_length _ _ hvl]; omega)
      (by simp)
      (by simp)
      (by simp [padTo])
      (by simp)
    simpa [dListLoop] using hpfx
  rw [hdec]
  simp only [listHeader, hloop]
  rfl

/-- A map decode whose wire image carries, after the records of `pre`, a
record whose offset field does not match the values cursor, returns the
empty map. -/
theorem deserializeInfoMap_corrupt_core (s : ControlSerializer) (pre : ControlInfoMap)
    (k a b : Nat) (W hdrB badOff R2 V tailB : List Nat) (hdr : IpaControlsHeader)
    (hW : W = hdrB ++ ((recordsBytesInfo pre 0 ++ (le32 a ++ (le32 b ++ (badOff ++ R2)))) ++ V))
    (hhdrB : hdrB.length = ipaControlsHeaderSize)
    (hparse : parseHeader hdrB = hdr) (hver : hdr.version = ipaControlsFormatVersion)
    (hoff1 : 20 ≤ hdr.dataOffset) (hoff2 : hdr.dataOffset ≤ hdr.size)
    (hsz : hdr.size < 4294967296)
    (hrec : (recordsBytesInfo pre 0 ++ (le32 a ++ (le32 b ++ (badOff ++ R2)))).length
      = hdr.dataOffset - 20)
    (hvals : V.length = hdr.size - hdr.dataOffset)
    (hentries : hdr.entries = pre.length + (k + 1))
    (hpre : pre.all entryWF = true)
    (hv32 : V.length < 4294967296)
    (hbadlen : badOff.length = 4)
    (hV : V = valuesBytesInfo pre ++ tailB)
    (hne : parse32 badOff ≠ (valuesBytesInfo pre).length) :
    (deserializeInfoMap s ⟨W, 0, false⟩).1 = [] := by
  have hdec := deserializeInfoMap_decomp s W hdrB
    (recordsBytesInfo pre 0 ++ (le32 a ++ (le32 b ++ (badOff ++ R2)))) V hdr
    hW hhdrB hparse hver hoff1 hoff2 hsz hrec hvals
  rw [hdec, hentries]
  have hpfx := dInfoLoopSegment pre (k + 1)
    (recordsBytesInfo pre 0 ++ (le32 a ++ (le32 b ++ (badOff ++ R2)))) 0 V 0 [] []
    (le32 a ++ (le32 b ++ (badOff ++ R2))) tailB hpre hv32
    (by simp) (by simp) (by rw [hV]; simp) (by simp)
  rw [hpfx]
  have hsplit12 : le32 a ++ (le32 b ++ (badOff ++ R2))
      = (le32 a ++ (le32 b ++ badOff)) ++ R2 := by
    simp [List.append_assoc]
  have hdropRec : (recordsBytesInfo pre 0
      ++ (le32 a ++ (le32 b ++ (badOff ++ R2)))).drop
        (0 + pre.length * ipaControlRangeEntrySize)
      = (le32 a ++ (le32 b ++ badOff)) ++ R2 := by
    rw [Nat.zero_add, ← recordsBytesInfo_length pre 0, List.drop_left, hsplit12]
  have hxlen : (le32 a ++ (le32 b ++ badOff)).length = ipaControlRangeEntrySize := by
    simp [le32_length, hbadlen, ipaControlRangeEntrySize]
  have hread := RBuf.read_eq_n
    (recordsBytesInfo pre 0 ++ (le32 a ++ (le32 b ++ (badOff ++ R2))))
    (0 + pre.length * ipaControlRangeEntrySize) ipaControlRangeEntrySize
    (le32 a ++ (le32 b ++ badOff)) R2 hdropRec hxlen
    (by
      simp only [List.length_append, Nat.zero_add, recordsBytesInfo_length]
      omega)
  have hdrop8 : (le32 a ++ (le32 b ++ badOff)).drop 8 = badOff := by
    rw [show (8 : Nat) = 4 + 4 from rfl, ← List.drop_drop, le32_append_drop4,
      le32_append_drop4]
  simp only [dInfoLoop, hread, hdrop8]
  rw [if_pos (by simpa using hne)]

set_option maxHeartbeats 1000000 in
/-- Flipping any byte of the stored offset field of any entry record of a
map's wire image makes the decode fail, returning the empty map. -/
theorem deserializeInfoMap_corrupt (s : ControlSerializer) (m : ControlInfoMap)
    (h i j nb : Nat) (hwf : mapWF m = true) (hh : h < 4294967296)
    (hi : i < m.length) (hj : j < 4) (hnb : nb < 256)
    (hne : nb ≠ (wireBytesInfo m h).getD (20 + 12 * i + 8 + j) 0) :
    (deserializeInfoMap s
      ⟨(wireBytesInfo m h).set (20 + 12 * i + 8 + j) nb, 0, false⟩).1 = [] := by
  obtain ⟨hall, hsize⟩ := mapWF_parts m hwf
  obtain ⟨cid, r, hcr⟩ : ∃ cid r, m[i] = (cid, r) := ⟨(m[i]).1, (m[i]).2, rfl⟩
  have hsplit : m = m.take i ++ ((cid, r) :: m.drop (i + 1)) := by
    rw [← hcr, ← List.drop_eq_getElem_cons hi, List.take_append_drop]
  have hPreLen : (m.take i).length = i := by
    rw [List.length_take]
    omega
  have hmlen : m.length = (m.take i).length + (m.drop (i + 1)).length + 1 := by
    have := congrArg List.length hsplit
    simpa using this
  have hbs : binarySizeInfoMap m
      = 20 + m.length * 12 + (m.map (fun c => binarySizeRange c.2)).sum := rfl
  have hvalsplit : valuesBytesInfo m
      = valuesBytesInfo (m.take i)
        ++ (storeRangeBytes r ++ valuesBytesInfo (m.drop (i + 1))) := by
    have h1 : valuesBytesInfo m
        = valuesBytesInfo (m.take i) ++ valuesBytesInfo ((cid, r) :: m.drop (i + 1)) := by
      rw [← valuesBytesInfo_append, ← hsplit]
    rw [h1]
    simp [valuesBytesInfo]
  have hoff_le : (valuesBytesInfo (m.take i)).length
      ≤ (m.map (fun c => binarySizeRange c.2)).sum := by
    have h2 := valuesBytesInfo_length m
    have h3 := congrArg List.length hvalsplit
    simp only [List.length_append] at h3
    omega
  have hoff32 : (valuesBytesInfo (m.take i)).length < 4294967296 := by omega
  have hrecsplit : recordsBytesInfo m 0
      = recordsBytesInfo (m.take i) 0
        ++ (le32 cid.id ++ (le32 cid.type
            ++ (le32 ((valuesBytesInfo (m.take i)).length)
              ++ recordsBytesInfo (m.drop (i + 1))
                ((valuesBytesInfo (m.take i)).length + (storeRangeBytes r).length)))) := by
    have h1 := recordsBytesInfo_append (m.take i) ((cid, r) :: m.drop (i + 1)) 0
    rw [← hsplit] at h1
    rw [h1]
    simp [recordsBytesInfo, List.append_assoc]
  have hPreRecLen : (recordsBytesInfo (m.take i) 0).length = i * 12 := by
    rw [recordsBytesInfo_length, hPreLen]
    rfl
  have hRecLen : (recordsBytesInfo m 0).length = m.length * 12 :=
    recordsBytesInfo_length m 0
  have hW0 : wireBytesInfo m h = headerBytes (infoHeader m h)
      ++ (recordsBytesInfo m 0
        ++ padTo ((m.map (fun c => binarySizeRange c.2)).sum) (valuesBytesInfo m)) := by
    simp [wireBytesInfo, infoHeader, List.append_assoc]
  have hset : (wireBytesInfo m h).set (20 + 12 * i + 8 + j) nb
      = headerBytes (infoHeader m h)
        ++ ((recordsBytesInfo (m.take i) 0
          ++ (le32 cid.id ++ (le32 cid.type
            ++ ((le32 ((valuesBytesInfo (m.take i)).length)).set j nb
              ++ recordsBytesInfo (m.drop (i + 1))
                ((valuesBytesInfo (m.take i)).length + (storeRangeBytes r).length)))))
          ++ padTo ((m.map (fun c => binarySizeRange c.2)).sum) (valuesBytesInfo m)) := by
    rw [hW0]
    rw [set_append_right _ _ _ _ (by rw [headerBytes_length]; omega)]
    rw [headerBytes_length]
    rw [show 20 + 12 * i + 8 + j - 20 = 12 * i + 8 + j from by omega]
    rw [set_append_left _ _ _ _ (by rw [hRecLen]; omega)]
    rw [hrecsplit]
    rw [set_append_right _ _ _ _ (by rw [hPreRecLen]; omega)]
    rw [hPreRecLen]
    rw [show 12 * i + 8 + j - i * 12 = 8 + j from by omega]
    rw [set_append_right _ _ _ _ (by rw [le32_length]; omega)]
    rw [le32_length]
    rw [show 8 + j - 4 = 4 + j from by omega]
    rw [set_append_right _ _ _ _ (by rw [le32_length]; omega)]
    rw [le32_length]
    rw [show 4 + j - 4 = j from by omega]
    rw [set_append_left _ _ _ _ (by rw [le32_length]; omega)]
  have hbyte : (wireBytesInfo m h).getD (20 + 12 * i + 8 + j) 0
      = (le32 ((valuesBytesInfo (m.take i)).length)).getD j 0 := by
    rw [hW0]
    rw [getD_append_right2 _ _ _ _ (by rw [headerBytes_length]; omega)]
    rw [headerBytes_length]
    rw [show 20 + 12 * i + 8 + j - 20 = 12 * i + 8 + j from by omega]
    rw [List.getD_append _ _ _ _ (by rw [hRecLen]; omega)]
    rw [hrecsplit]
    rw [getD_append_right2 _ _ _ _ (by rw [hPreRecLen]; omega)]
    rw [hPreRecLen]
    rw [show 12 * i + 8 + j - i * 12 = 8 + j from by omega]
    rw [getD_append_right2 _ _ _ _ (by rw [le32_length]; omega)]
    rw [le32_length]
    rw [show 8 + j - 4 = 4 + j from by omega]
    rw [getD_append_right2 _ _ _ _ (by rw [le32_length]; omega)]
    rw [le32_length]
    rw [show 4 + j - 4 = j from by omega]
    rw [List.getD_append _ _ _ _ (by rw [le32_length]; omega)]
  have hvl := valuesBytesInfo_length m
  apply deserializeInfoMap_corrupt_core s (m.take i) ((m.drop (i + 1)).length)
    cid.id cid.type _ (headerBytes (infoHeader m h))
    ((le32 ((valuesBytesInfo (m.take i)).length)).set j nb)
    (recordsBytesInfo (m.drop (i + 1))
      ((valuesBytesInfo (m.take i)).length + (storeRangeBytes r).length))
    (padTo ((m.map (fun c => binarySizeRange c.2)).sum) (valuesBytesInfo m))
    (storeRangeBytes r ++ (valuesBytesInfo (m.drop (i + 1))
      ++ List.replicate ((m.map (fun c => binarySizeRange c.2)).sum
        - (valuesBytesInfo m).length) 0))
    (infoHeader m h)
    hset
    (by rw [headerBytes_length]; rfl)
    (infoHeader_fields m h hsize hh)
    (by simp [infoHeader])
    (by simp [infoHeader, ipaControlsHeaderSize])
    (by simp only [infoHeader, ipaControlsHeaderSize, ipaControlRangeEntrySize]; omega)
    (by simp only [infoHeader]; exact hsize)
    (by
      simp only [List.length_append, hPreRecLen, le32_length, List.length_set,
        recordsBytesInfo_length, infoHeader, ipaControlsHeaderSize, ipaControlRangeEntrySize]
      omega)
    (by rw [padTo_length _ _ hvl]; simp only [infoHeader, ipaControlsHeaderSize,
          ipaControlRangeEntrySize]; omega)
    (by simp only [infoHeader]; omega)
    (all_append_left _ _ _ (by rw [← hsplit]; exact hall))
    (by rw [padTo_length _ _ hvl]; omega)
    (by simp [List.length_set, le32_length])
    (by rw [padTo, hvalsplit]; simp [List.append_assoc])
    (by
      apply parse32_le32_set_ne _ _ _ hoff32 hj hnb
      rw [← hbyte]
      exact hne)

/-- A list decode whose wire image carries, after the records of `pre`, a
record whose offset field does not match the values cursor, returns the
default-constructed list (whether or not the handle resolves). -/
theorem deserializeList_corrupt_core (s : ControlSerializer)
    (pre : List (Nat × ControlValue)) (k a c b : Nat)
    (W hdrB badOff R2 V tailB : List Nat) (hdr : IpaControlsHeader)
    (hW : W = hdrB ++ ((recordsBytesList pre 0
      ++ (le32 a ++ (le32 c ++ (le32 b ++ (badOff ++ R2))))) ++ V))
    (hhdrB : hdrB.length = ipaControlsHeaderSize)
    (hparse : parseHeader hdrB = hdr) (hver : hdr.version = ipaControlsFormatVersion)
    (hoff1 : 20 ≤ hdr.dataOffset) (hoff2 : hdr.dataOffset ≤ hdr.size)
    (hsz : hdr.size < 4294967296)
    (hrec : (recordsBytesList pre 0
      ++ (le32 a ++ (le32 c ++ (le32 b ++ (badOff ++ R2))))).length
      = hdr.dataOffset - 20)
    (hvals : V.length = hdr.size - hdr.dataOffset)
    (hentries : hdr.entries = pre.length + (k + 1))
    (hpre : pre.all listEntryWF = true)
    (hv32 : V.length < 4294967296)
    (hbadlen : badOff.length = 4)
    (hV : V = valuesBytesList pre ++ tailB)
    (hne : parse32 badOff ≠ (valuesBytesList pre).length) :
    (deserializeList s ⟨W, 0, false⟩).1 = emptyControlList := by
  have hdec := deserializeList_decomp s W hdrB
    (recordsBytesList pre 0 ++ (le32 a ++ (le32 c ++ (le32 b ++ (badOff ++ R2))))) V hdr
    hW hhdrB hparse hver hoff1 hoff2 hsz hrec hvals
  rw [hdec, hentries]
  have hpfx := dListLoopSegment pre (k + 1)
    (recordsBytesList pre 0 ++ (le32 a ++ (le32 c ++ (le32 b ++ (badOff ++ R2))))) 0 V 0 []
    (le32 a ++ (le32 c ++ (le32 b ++ (badOff ++ R2)))) tailB hpre hv32
    (by simp) (by simp) (by rw [hV]; simp) (by simp)
  rw [hpfx]
  have hsplit16 : le32 a ++ (le32 c ++ (le32 b ++ (badOff ++ R2)))
      = (le32 a ++ (le32 c ++ (le32 b ++ badOff))) ++ R2 := by
    simp [List.append_assoc]
  have hdropRec : (recordsBytesList pre 0
      ++ (le32 a ++ (le32 c ++ (le32 b ++ (badOff ++ R2))))).drop
        (0 + pre.length * ipaControlValueEntrySize)
      = (le32 a ++ (le32 c ++ (le32 b ++ badOff))) ++ R2 := by
    rw [Nat.zero_add, ← recordsBytesList_length pre 0, List.drop_left, hsplit16]
  have hxlen : (le32 a ++ (le32 c ++ (le32 b ++ badOff))).length
      = ipaControlValueEntrySize := by
    simp [le32_length, hbadlen, ipaControlValueEntrySize]
  have hread := RBuf.read_eq_n
    (recordsBytesList pre 0 ++ (le32 a ++ (le32 c ++ (le32 b ++ (badOff ++ R2)))))
    (0 + pre.length * ipaControlValueEntrySize) ipaControlValueEntrySize
    (le32 a ++ (le32 c ++ (le32 b ++ badOff))) R2 hdropRec hxlen
    (by
      simp only [List.length_append, Nat.zero_add, recordsBytesList_length]
      omega)
  have hdrop12 : (le32 a ++ (le32 c ++ (le32 b ++ badOff))).drop 12 = badOff := by
    rw [show (12 : Nat) = 4 + 4 + 4 from rfl, ← List.drop_drop, ← List.drop_drop,
      le32_append_drop4, le32_append_drop4, le32_append_drop4]
  cases hrsv : (if hdr.handle ≠ 0 then
      match findByValue hdr.handle s.infoMapHandles with
      | Option.none => Option.none
      | some r => some (IdSrc.ofMap r)
    else some IdSrc.global) with
  | none => rfl
  | some src1 =>
    simp only [dListLoop, hread, hdrop12]
    rw [if_pos (by simpa using hne)]

set_option maxHeartbeats 1000000 in
/-- Flipping any byte of the stored offset field of any entry record of a
list's wire image makes the decode fail, returning the default list. -/
theorem deserializeList_corrupt (s : ControlSerializer)
    (es : List (Nat × ControlValue)) (h i j nb : Nat)
    (hwf : listWF ⟨.null, es⟩ = true) (hh : h < 4294967296)
    (hi : i < es.length) (hj : j < 4) (hnb : nb < 256)
    (hne : nb ≠ (wireBytesList es h).getD (20 + 16 * i + 12 + j) 0) :
    (deserializeList s
      ⟨(wireBytesList es h).set (20 + 16 * i + 12 + j) nb, 0, false⟩).1
      = emptyControlList := by
  obtain ⟨hall, hsize⟩ := listWF_parts _ hwf
  obtain ⟨eid, v, hcr⟩ : ∃ eid v, es[i] = (eid, v) := ⟨(es[i]).1, (es[i]).2, rfl⟩
  have hsplit : es = es.take i ++ ((eid, v) :: es.drop (i + 1)) := by
    rw [← hcr, ← List.drop_eq_getElem_cons hi, List.take_append_drop]
  have hPreLen : (es.take i).length = i := by
    rw [List.length_take]
    omega
  have hmlen : es.length = (es.take i).length + (es.drop (i + 1)).length + 1 := by
    have := congrArg List.length hsplit
    simpa using this
  have hbs : binarySizeList ⟨.null, es⟩
      = 20 + es.length * 16 + (es.map (fun c => binarySizeValue c.2)).sum := rfl
  have hvalsplit : valuesBytesList es
      = valuesBytesList (es.take i)
        ++ (storeValueBytes v ++ valuesBytesList (es.drop (i + 1))) := by
    have h1 : valuesBytesList es
        = valuesBytesList (es.take i) ++ valuesBytesList ((eid, v) :: es.drop (i + 1)) := by
      rw [← valuesBytesList_append, ← hsplit]
    rw [h1]
    simp [valuesBytesList]
  have hoff_le : (valuesBytesList (es.take i)).length
      ≤ (es.map (fun c => binarySizeValue c.2)).sum := by
    have h2 := valuesBytesList_length es
    have h3 := congrArg List.length hvalsplit
    simp only [List.length_append] at h3
    omega
  have hoff32 : (valuesBytesList (es.take i)).length < 4294967296 := by omega
  have hrecsplit : recordsBytesList es 0
      = recordsBytesList (es.take i) 0
        ++ (le32 eid ++ (le32 1 ++ (le32 v.type
            ++ (le32 ((valuesBytesList (es.take i)).length)
              ++ recordsBytesList (es.drop (i + 1))
                ((valuesBytesList (es.take i)).length + (storeValueBytes v).length))))) := by
    have h1 := recordsBytesList_append (es.take i) ((eid, v) :: es.drop (i + 1)) 0
    rw [← hsplit] at h1
    rw [h1]
    simp [recordsBytesList, List.append_assoc]
  have hPreRecLen : (recordsBytesList (es.take i) 0).length = i * 16 := by
    rw [recordsBytesList_length, hPreLen]
    rfl
  have hRecLen : (recordsBytesList es 0).length = es.length * 16 :=
    recordsBytesList_length es 0
  have hW0 : wireBytesList es h = headerBytes (listHeader es h)
      ++ (recordsBytesList es 0
        ++ padTo ((es.map (fun c => binarySizeValue c.2)).sum) (valuesBytesList es)) := by
    simp [wireBytesList, listHeader, List.append_assoc]
  have hset : (wireBytesList es h).set (20 + 16 * i + 12 + j) nb
      = headerBytes (listHeader es h)
        ++ ((recordsBytesList (es.take i) 0
          ++ (le32 eid ++ (le32 1 ++ (le32 v.type
            ++ ((le32 ((valuesBytesList (es.take i)).length)).set j nb
              ++ recordsBytesList (es.drop (i + 1))
                ((valuesBytesList (es.take i)).length + (storeValueBytes v).length))))))
          ++ padTo ((es.map (fun c => binarySizeValue c.2)).sum) (valuesBytesList es)) := by
    rw [hW0]
    rw [set_append_right _ _ _ _ (by rw [headerBytes_length]; omega)]
    rw [headerBytes_length]
    rw [show 20 + 16 * i + 12 + j - 20 = 16 * i + 12 + j from by omega]
    rw [set_append_left _ _ _ _ (by rw [hRecLen]; omega)]
    rw [hrecsplit]
    rw [set_append_right _ _ _ _ (by rw [hPreRecLen]; omega)]
    rw [hPreRecLen]
    rw [show 16 * i + 12 + j - i * 16 = 12 + j from by omega]
    rw [set_append_right _ _ _ _ (by rw [le32_length]; omega)]
    rw [le32_length]
    rw [show 12 + j - 4 = 8 + j from by omega]
    rw [set_append_right _ _ _ _ (by rw [le32_length]; omega)]
    rw [le32_length]
    rw [show 8 + j - 4 = 4 + j from by omega]
    rw [set_append_right _ _ _ _ (by rw [le32_length]; omega)]
    rw [le32_length]
    rw [show 4 + j - 4 = j from by omega]
    rw [set_append_left _ _ _ _ (by rw [le32_length]; omega)]
  have hbyte : (wireBytesList es h).getD (20 + 16 * i + 12 + j) 0
      = (le32 ((valuesBytesList (es.take i)).length)).getD j 0 := by
    rw [hW0]
    rw [getD_append_right2 _ _ _ _ (by rw [headerBytes_length]; omega)]
    rw [headerBytes_length]
    rw [show 20 + 16 * i + 12 + j - 20 = 16 * i + 12 + j from by omega]
    rw [List.getD_append _ _ _ _ (by rw [hRecLen]; omega)]
    rw [hrecsplit]
    rw [getD_append_right2 _ _ _ _ (by rw [hPreRecLen]; omega)]
    rw [hPreRecLen]
    rw [show 16 * i + 12 + j - i * 16 = 12 + j from by omega]
    rw [getD_append_right2 _ _ _ _ (by rw [le32_length]; omega)]
    rw [le32_length]
    rw [show 12 + j - 4 = 8 + j from by omega]
    rw [getD_append_right2 _ _ _ _ (by rw [le32_length]; omega)]
    rw [le32_length]
    rw [show 8 + j - 4 = 4 + j from by omega]
    rw [getD_append_right2 _ _ _ _ (by rw [le32_length]; omega)]
    rw [le32_length]
    rw [show 4 + j - 4 = j from by omega]
    rw [List.getD_append _ _ _ _ (by rw [le32_length]; omega)]
  have hvl := valuesBytesList_length es
  apply deserializeList_corrupt_core s (es.take i) ((es.drop (i + 1)).length)
    eid 1 v.type _ (headerBytes (listHeader es h))
    ((le32 ((valuesBytesList (es.take i)).length)).set j nb)
    (recordsBytesList (es.drop (i + 1))
      ((valuesBytesList (es.take i)).length + (storeValueBytes v).length))
    (padTo ((es.map (fun c => binarySizeValue c.2)).sum) (valuesBytesList es))
    (storeValueBytes v ++ (valuesBytesList (es.drop (i + 1))
      ++ List.replicate ((es.map (fun c => binarySizeValue c.2)).sum
        - (valuesBytesList es).length) 0))
    (listHeader es h)
    hset
    (by rw [headerBytes_length]; rfl)
    (listHeader_fields es h hsize hh)
    (by simp [listHeader])
    (by simp [listHeader, ipaControlsHeaderSize])
    (by simp only [listHeader, ipaControlsHeaderSize, ipaControlValueEntrySize]; omega)
    (by simp only [listHeader]; exact hsize)
    (by
      simp only [List.length_append, hPreRecLen, le32_length, List.length_set,
        recordsBytesList_length, listHeader, ipaControlsHeaderSize, ipaControlValueEntrySize]
      omega)
    (by rw [padTo_length _ _ hvl]; simp only [listHeader, ipaControlsHeaderSize,
          ipaControlValueEntrySize]; omega)
    (by simp only [listHeader]; omega)
    (all_append_left _ _ _ (by rw [← hsplit]; exact hall))
    (by rw [padTo_length _ _ hvl]; omega)
    (by simp [List.length_set, le32_length])
    (by rw [padTo, hvalsplit]; simp [List.append_assoc])
    (by
      apply parse32_le32_set_ne _ _ _ hoff32 hj hnb
      rw [← hbyte]
      exact hne)

/-! ## State-effect lemmas and iterated serialization -/

/-- Both outcomes of a map serialization leave the serial counter at
`(serial + 1) mod 2^32`: the code increments it before any check. -/
theorem serializeInfoMap_serial (s : ControlSerializer) (ref : MapRef)
    (m : ControlInfoMap) (buf : WBuf) :
    (serializeInfoMap s ref m buf).2.2.serial = (s.serial + 1) % 4294967296 := by
  simp only [serializeInfoMap]
  split <;> rfl

/-- A successful map serialization registers identity→handle and bumps the
serial; nothing else changes. -/
theorem serializeInfoMap_success_state (s : ControlSerializer) (ref : MapRef)
    (m : ControlInfoMap) (buf : WBuf)
    (h : (serializeInfoMap s ref m buf).1 = 0) :
    (serializeInfoMap s ref m buf).2.2
      = ⟨(s.serial + 1) % 4294967296,
         assocSet ref ((s.serial + 1) % 4294967296) s.infoMapHandles,
         s.infoMaps, s.controlIds⟩ := by
  simp only [serializeInfoMap] at h ⊢
  split at h <;> split <;> simp_all [ENOSPC]

/-- The status of a successful serialization, projected. -/
theorem serializeInfoMap_success_code (s : ControlSerializer) (ref : MapRef)
    (m : ControlInfoMap) (c : Nat) (d : List Nat)
    (hcap : d.length + binarySizeInfoMap m ≤ c) :
    (serializeInfoMap s ref m ⟨c, d, false⟩).1 = 0 := by
  rw [serializeInfoMap_success s ref m c d hcap]

/-- The identity→handle table after a successful serialization, projected. -/
theorem serializeInfoMap_success_handles (s : ControlSerializer) (ref : MapRef)
    (m : ControlInfoMap) (c : Nat) (d : List Nat)
    (hcap : d.length + binarySizeInfoMap m ≤ c) :
    (serializeInfoMap s ref m ⟨c, d, false⟩).2.2.infoMapHandles
      = assocSet ref ((s.serial + 1) % 4294967296) s.infoMapHandles := by
  rw [serializeInfoMap_success s ref m c d hcap]

theorem assocFind_assocSet {α β : Type} [DecidableEq α] (k : α) (v : β)
    (l : List (α × β)) : assocFind k (assocSet k v l) = some v := by
  induction l with
  | nil => simp [assocSet, assocFind]
  | cons p rest ih =>
    obtain ⟨k1, v1⟩ := p
    by_cases hk : k = k1 <;> simp [assocSet, assocFind, hk, ih]

/-- The serializer after `n` successive serializations of the empty map into
fresh 20-byte buffers, starting from a fresh serializer. -/
def iterSer : Nat → ControlSerializer
  | 0 => ControlSerializer.init
  | n + 1 => (serializeInfoMap (iterSer n) (.ext 0) [] ⟨20, [], false⟩).2.2

theorem iterSer_serial (n : Nat) : (iterSer n).serial = n % 4294967296 := by
  induction n with
  | zero => rfl
  | succ k ih =>
    simp only [iterSer]
    rw [serializeInfoMap_serial, ih]
    omega

/-- A failing decode loop created at least one ControlId (the ControlId of
an entry is cached before its offset is checked). -/
theorem dInfoLoop_none_ids (n : Nat) :
    ∀ (eb vb : RBuf) (ids : List ControlId) (acc : ControlInfoMap)
      (ids2 : List ControlId),
    dInfoLoop n eb vb ids acc = (Option.none, ids2) →
    ids.length < ids2.length := by
  induction n with
  | zero =>
    intro eb vb ids acc ids2 h
    simp only [dInfoLoop] at h
    exact Option.noConfusion (congrArg Prod.fst h)
  | succ k ih =>
    intro eb vb ids acc ids2 h
    simp only [dInfoLoop] at h
    split at h
    · have h2 := congrArg Prod.snd h
      simp only at h2
      rw [← h2, List.length_append]
      simp
    · have := ih _ _ _ _ _ h
      rw [List.length_append] at this
      omega

/-- The (id, kind, bounds) content of a decoded map equals the original's. -/
theorem decodedMapInfo_content (m : ControlInfoMap) :
    (decodedMapInfo m).map entryContent = m.map entryContent := by
  induction m with
  | nil => rfl
  | cons e rest ih =>
    obtain ⟨cid, r⟩ := e
    simp only [decodedMapInfo, List.map_cons, entryContent] at ih ⊢
    exact congrArg (List.cons (cid.id, cid.type, r)) ih

/-- A map decode that reaches the entry loop and hits an offset mismatch
returns the empty map, leaves the maps and handles tables and the serial
untouched, and appends the ControlIds created before (and at) the failure to
the catalog store. -/
theorem deserializeInfoMap_offset_mismatch (s : ControlSerializer)
    (buf buf1 buf2 buf3 eb vb : RBuf) (hbs : List Nat) (ids : List ControlId)
    (h1 : buf.read ipaControlsHeaderSize = (hbs, buf1))
    (h2 : (parseHeader hbs).version = ipaControlsFormatVersion)
    (h3 : buf1.carveOut (usub64 (parseHeader hbs).dataOffset ipaControlsHeaderSize)
      = (eb, buf2))
    (h4 : buf2.carveOut (usub64 (parseHeader hbs).size (parseHeader hbs).dataOffset)
      = (vb, buf3))
    (h5 : buf3.ovf = false)
    (h6 : dInfoLoop (parseHeader hbs).entries eb vb [] [] = (Option.none, ids)) :
    deserializeInfoMap s buf = ([], { s with controlIds := s.controlIds ++ ids }, buf3)
      ∧ ids ≠ [] := by
  constructor
  · simp only [deserializeInfoMap, h1, h2, h3, h4, h6]
    rw [if_neg (by simp), if_neg (by simp [h5])]
  · have := dInfoLoop_none_ids (parseHeader hbs).entries eb vb [] [] ids h6
    intro hc
    rw [hc] at this
    simp at this

/-! ## The claims -/

/-- A concrete metadata map with one entry of every supported kind. -/
def Mw : ControlInfoMap :=
  [(⟨1, "", 1⟩, ⟨.vbool false, .vbool true⟩),
   (⟨2, "", 2⟩, ⟨.vint32 0, .vint32 100⟩),
   (⟨3, "", 3⟩, ⟨.vint64 (-5), .vint64 7⟩),
   (⟨4, "", 0⟩, ⟨.vnone, .vnone⟩)]

/-- A concrete value list. -/
def Lw : List (Nat × ControlValue) :=
  [(1, .vbool true), (2, .vint32 42)]

/-- The corrupted-bytes input of the C4 analysis: a one-entry map image
whose entry's offset field reads 7 instead of 0. -/
def B4bytes : List Nat :=
  le32 1 ++ le32 1 ++ le32 1 ++ le32 34 ++ le32 32
    ++ (le32 1 ++ le32 1 ++ le32 7) ++ [0, 1]

/-- C1: serializing a well-formed Metadata Map containing entries of every
supported kind with a fresh Serializer and deserializing the resulting bytes
with a fresh Serializer yields a map equal to the original in
(id, kind, range-bounds) content. -/
theorem spec_C1_metadata_map_roundtrip (m : ControlInfoMap)
    (hwf : mapWF m = true)
    (hkinds : ([0, 1, 2, 3] : List Nat).all
      (fun t => m.any (fun e => e.1.type == t)) = true) :
    (serializeInfoMap ControlSerializer.init (MapRef.ext 0) m
      ⟨binarySizeInfoMap m, [], false⟩).1 = 0 ∧
    ((deserializeInfoMap ControlSerializer.init
      ⟨(serializeInfoMap ControlSerializer.init (MapRef.ext 0) m
        ⟨binarySizeInfoMap m, [], false⟩).2.1.data, 0, false⟩).1).map entryContent
      = m.map entryContent := by
  have hs := serializeInfoMap_success ControlSerializer.init (MapRef.ext 0) m
    (binarySizeInfoMap m) [] (by simp)
  rw [hs]
  refine ⟨rfl, ?_⟩
  have h1 : ([] : List Nat)
      ++ wireBytesInfo m ((ControlSerializer.init.serial + 1) % 4294967296)
      = wireBytesInfo m 1 := by
    simp [ControlSerializer.init]
  rw [h1, deserializeInfoMap_of_wire ControlSerializer.init m 1 hwf (by norm_num)]
  exact decodedMapInfo_content m

/-- C1 witness at a concrete four-kind map. -/
theorem spec_C1_witness :
    (serializeInfoMap ControlSerializer.init (MapRef.ext 0) Mw
      ⟨binarySizeInfoMap Mw, [], false⟩).1 = 0 ∧
    ((deserializeInfoMap ControlSerializer.init
      ⟨(serializeInfoMap ControlSerializer.init (MapRef.ext 0) Mw
        ⟨binarySizeInfoMap Mw, [], false⟩).2.1.data, 0, false⟩).1).map entryContent
      = Mw.map entryContent :=
  spec_C1_metadata_map_roundtrip Mw (by decide) (by decide)

/-- C2: `binarySize` is sufficient and minimal — serializing a Metadata Map
into a fresh buffer of exactly `binarySize` bytes succeeds and consumes
exactly `binarySize` bytes of it, while a buffer of capacity
`binarySize - 1` fails with `-ENOSPC`. -/
theorem spec_C2_binarySize_exact (m : ControlInfoMap) :
    (serializeInfoMap ControlSerializer.init (MapRef.ext 0) m
      ⟨binarySizeInfoMap m, [], false⟩).1 = 0 ∧
    (serializeInfoMap ControlSerializer.init (MapRef.ext 0) m
      ⟨binarySizeInfoMap m, [], false⟩).2.1.data.length = binarySizeInfoMap m ∧
    (serializeInfoMap ControlSerializer.init (MapRef.ext 0) m
      ⟨binarySizeInfoMap m - 1, [], false⟩).1 = -ENOSPC := by
  have hs := serializeInfoMap_success ControlSerializer.init (MapRef.ext 0) m
    (binarySizeInfoMap m) [] (by simp)
  have hge : 20 ≤ binarySizeInfoMap m := by
    simp only [binarySizeInfoMap, ipaControlsHeaderSize]
    omega
  have hf := serializeInfoMap_enospc ControlSerializer.init (MapRef.ext 0) m
    (binarySizeInfoMap m - 1) (by omega)
  refine ⟨by rw [hs], ?_, hf.1⟩
  rw [hs]
  simp [wireBytesInfo_length]

/-- C3 counterexample: a serialization that fails with `-ENOSPC` does mutate
the Serializer's state — the serial counter is incremented. -/
theorem spec_C3_counterexample :
    (serializeInfoMap ControlSerializer.init (MapRef.ext 0) Mw ⟨0, [], false⟩).1
      = -ENOSPC ∧
    (serializeInfoMap ControlSerializer.init (MapRef.ext 0) Mw
      ⟨0, [], false⟩).2.2.serial ≠ ControlSerializer.init.serial := by
  decide

/-- C3 (amended): when serialization of a Metadata Map fails with `-ENOSPC`,
the identity→handle table, the handle→map table and the catalog store are
unchanged (no handle is registered), but the serial counter has been
incremented modulo 2^32. -/
theorem spec_C3_enospc_state_amended (s : ControlSerializer) (ref : MapRef)
    (m : ControlInfoMap) (buf : WBuf)
    (h : (serializeInfoMap s ref m buf).1 = -ENOSPC) :
    (serializeInfoMap s ref m buf).2.2.infoMapHandles = s.infoMapHandles ∧
    (serializeInfoMap s ref m buf).2.2.infoMaps = s.infoMaps ∧
    (serializeInfoMap s ref m buf).2.2.controlIds = s.controlIds ∧
    (serializeInfoMap s ref m buf).2.2.serial = (s.serial + 1) % 4294967296 := by
  have h2 := serializeInfoMap_enospc_state s ref m buf h
  rw [h2]
  exact ⟨rfl, rfl, rfl, rfl⟩

/-- C3 witness at a concrete failing serialization. -/
theorem spec_C3_witness :
    (serializeInfoMap ControlSerializer.init (MapRef.ext 0) Mw
      ⟨0, [], false⟩).2.2.infoMapHandles = ControlSerializer.init.infoMapHandles ∧
    (serializeInfoMap ControlSerializer.init (MapRef.ext 0) Mw
      ⟨0, [], false⟩).2.2.infoMaps = ControlSerializer.init.infoMaps ∧
    (serializeInfoMap ControlSerializer.init (MapRef.ext 0) Mw
      ⟨0, [], false⟩).2.2.controlIds = ControlSerializer.init.controlIds ∧
    (serializeInfoMap ControlSerializer.init (MapRef.ext 0) Mw
      ⟨0, [], false⟩).2.2.serial = (ControlSerializer.init.serial + 1) % 4294967296 :=
  spec_C3_enospc_state_amended ControlSerializer.init (MapRef.ext 0) Mw
    ⟨0, [], false⟩ (by decide)

/-- C4 counterexample: a map decode aborted by an offset mismatch returns
the empty map, yet the catalog store is NOT free of entries appended during
the failed call — the failing entry's ControlId remains cached. -/
theorem spec_C4_counterexample :
    (deserializeInfoMap ControlSerializer.init ⟨B4bytes, 0, false⟩).1 = [] ∧
    (deserializeInfoMap ControlSerializer.init ⟨B4bytes, 0, false⟩).2.1.controlIds
      ≠ ControlSerializer.init.controlIds := by
  decide

/-- C4 (amended): when a map decode reaches the entry loop and an entry's
recorded value-offset differs from the values cursor, the whole decode
aborts returning the empty map, the partial result map is discarded and no
map or handle is registered (`infoMaps`, `infoMapHandles` and the serial are
untouched), but the catalog store keeps the ControlIds created up to and
including the failing entry — at least one. -/
theorem spec_C4_offset_mismatch_amended (s : ControlSerializer)
    (buf buf1 buf2 buf3 eb vb : RBuf) (hbs : List Nat) (ids : List ControlId)
    (h1 : buf.read ipaControlsHeaderSize = (hbs, buf1))
    (h2 : (parseHeader hbs).version = ipaControlsFormatVersion)
    (h3 : buf1.carveOut (usub64 (parseHeader hbs).dataOffset ipaControlsHeaderSize)
      = (eb, buf2))
    (h4 : buf2.carveOut (usub64 (parseHeader hbs).size (parseHeader hbs).dataOffset)
      = (vb, buf3))
    (h5 : buf3.ovf = false)
    (h6 : dInfoLoop (parseHeader hbs).entries eb vb [] [] = (Option.none, ids)) :
    deserializeInfoMap s buf = ([], { s with controlIds := s.controlIds ++ ids }, buf3)
      ∧ ids ≠ [] :=
  deserializeInfoMap_offset_mismatch s buf buf1 buf2 buf3 eb vb hbs ids
    h1 h2 h3 h4 h5 h6

/-- C4 witness at the concrete corrupted bytes. -/
theorem spec_C4_witness :
    deserializeInfoMap ControlSerializer.init ⟨B4bytes, 0, false⟩
      = ([], { ControlSerializer.init with
          controlIds := ControlSerializer.init.controlIds
            ++ [(⟨1, "", 1⟩ : ControlId)] }, ⟨B4bytes, 34, false⟩)
      ∧ [(⟨1, "", 1⟩ : ControlId)] ≠ [] :=
  spec_C4_offset_mismatch_amended ControlSerializer.init ⟨B4bytes, 0, false⟩
    ⟨B4bytes, 20, false⟩ ⟨B4bytes, 32, false⟩ ⟨B4bytes, 34, false⟩
    ⟨[1, 0, 0, 0, 1, 0, 0, 0, 7, 0, 0, 0], 0, false⟩ ⟨[0, 1], 0, false⟩
    [1, 0, 0, 0, 1, 0, 0, 0, 1, 0, 0, 0, 34, 0, 0, 0, 32, 0, 0, 0]
    [(⟨1, "", 1⟩ : ControlId)]
    (by decide) (by decide) (by decide) (by decide) (by decide) (by decide)

/-- C5: for a well-formed serialized Metadata Map or Value List, changing
any single byte of any entry record's stored offset field makes the
corresponding deserialize call fail, returning the empty map (resp. the
default-constructed list) instead of data decoded at mismatched positions. -/
theorem spec_C5_offset_byte_corruption :
    (∀ (s2 : ControlSerializer) (m : ControlInfoMap) (i j nb : Nat),
      mapWF m = true → i < m.length → j < 4 → nb < 256 →
      nb ≠ (serializeInfoMap ControlSerializer.init (MapRef.ext 0) m
        ⟨binarySizeInfoMap m, [], false⟩).2.1.data.getD (20 + 12 * i + 8 + j) 0 →
      (deserializeInfoMap s2
        ⟨(serializeInfoMap ControlSerializer.init (MapRef.ext 0) m
          ⟨binarySizeInfoMap m, [], false⟩).2.1.data.set (20 + 12 * i + 8 + j) nb,
         0, false⟩).1 = [])
    ∧
    (∀ (s2 : ControlSerializer) (es : List (Nat × ControlValue)) (i j nb : Nat),
      listWF ⟨.null, es⟩ = true → i < es.length → j < 4 → nb < 256 →
      nb ≠ (serializeList ControlSerializer.init ⟨.null, es⟩
        ⟨binarySizeList ⟨.null, es⟩, [], false⟩).2.1.data.getD (20 + 16 * i + 12 + j) 0 →
      (deserializeList s2
        ⟨(serializeList ControlSerializer.init ⟨.null, es⟩
          ⟨binarySizeList ⟨.null, es⟩, [], false⟩).2.1.data.set (20 + 16 * i + 12 + j) nb,
         0, false⟩).1 = emptyControlList) := by
  constructor
  · intro s2 m i j nb hwf hi hj hnb hne
    have hs := serializeInfoMap_success ControlSerializer.init (MapRef.ext 0) m
      (binarySizeInfoMap m) [] (by simp)
    rw [hs] at hne ⊢
    have h1 : ([] : List Nat)
        ++ wireBytesInfo m ((ControlSerializer.init.serial + 1) % 4294967296)
        = wireBytesInfo m 1 := by
      simp [ControlSerializer.init]
    rw [h1] at hne ⊢
    exact deserializeInfoMap_corrupt s2 m 1 i j nb hwf (by norm_num) hi hj hnb hne
  · intro s2 es i j nb hwf hi hj hnb hne
    have hs := serializeList_success ControlSerializer.init ⟨.null, es⟩ 0
      (binarySizeList ⟨.null, es⟩) [] rfl (by simp)
    rw [hs] at hne ⊢
    have h1 : ([] : List Nat) ++ wireBytesList es 0 = wireBytesList es 0 := by
      simp
    rw [h1] at hne ⊢
    exact deserializeList_corrupt s2 es 0 i j nb hwf (by norm_num) hi hj hnb hne

/-- C5 witness: flipping the low byte of the second entry's offset field in
concrete map and list images makes both decodes fail. -/
theorem spec_C5_witness :
    (deserializeInfoMap ControlSerializer.init
      ⟨(serializeInfoMap ControlSerializer.init (MapRef.ext 0) Mw
        ⟨binarySizeInfoMap Mw, [], false⟩).2.1.data.set (20 + 12 * 1 + 8 + 0) 9,
       0, false⟩).1 = [] ∧
    (deserializeList ControlSerializer.init
      ⟨(serializeList ControlSerializer.init ⟨.null, Lw⟩
        ⟨binarySizeList ⟨.null, Lw⟩, [], false⟩).2.1.data.set (20 + 16 * 1 + 12 + 0) 9,
       0, false⟩).1 = emptyControlList :=
  ⟨spec_C5_offset_byte_corruption.1 ControlSerializer.init Mw 1 0 9
    (by decide) (by decide) (by decide) (by decide) (by decide),
   spec_C5_offset_byte_corruption.2 ControlSerializer.init Lw 1 0 9
    (by decide) (by decide) (by decide) (by decide) (by decide)⟩

/-- C6: a ControlList referencing a Metadata Map unknown to the Serializer
fails: serialize returns `-ENOENT` with the buffer and state untouched when
the list's map is absent from the identity→handle table, and deserialize
returns the empty list when the header's non-zero handle matches no entry of
that table (e.g. a list decoded before its map on a fresh Serializer). -/
theorem spec_C6_unknown_reference :
    (∀ (s : ControlSerializer) (list : ControlList) (buf : WBuf) (r : MapRef),
      list.src = .ofMap r → assocFind r s.infoMapHandles = Option.none →
      serializeList s list buf = (-ENOENT, buf, s))
    ∧
    (∀ (s : ControlSerializer) (buf : RBuf),
      (parseHeader (buf.read ipaControlsHeaderSize).1).handle ≠ 0 →
      findByValue (parseHeader (buf.read ipaControlsHeaderSize).1).handle
        s.infoMapHandles = Option.none →
      (deserializeList s buf).1 = emptyControlList) := by
  constructor
  · intro s list buf r hr hfind
    exact serializeList_enoent s list buf r hr hfind
  · intro s buf h0 hfind
    exact deserializeList_unknown_handle s buf h0 hfind

/-- C6 witness: serializing a list referencing an unregistered map fails
with `-ENOENT`; decoding a handle-1 list image on a fresh Serializer (its
map never decoded) yields the empty list. -/
theorem spec_C6_witness :
    serializeList ControlSerializer.init ⟨.ofMap (MapRef.ext 5), []⟩ ⟨40, [], false⟩
      = (-ENOENT, ⟨40, [], false⟩, ControlSerializer.init) ∧
    (deserializeList ControlSerializer.init ⟨wireBytesList Lw 1, 0, false⟩).1
      = emptyControlList :=
  ⟨spec_C6_unknown_reference.1 ControlSerializer.init ⟨.ofMap (MapRef.ext 5), []⟩
    ⟨40, [], false⟩ (MapRef.ext 5) (by decide) (by decide),
   spec_C6_unknown_reference.2 ControlSerializer.init ⟨wireBytesList Lw 1, 0, false⟩
    (by decide) (by decide)⟩

/-- C7 counterexample: handle 0 IS assigned to a real Metadata Map by a long
enough sequence of operations — after 2^32 - 1 successful serializations the
32-bit serial counter holds 2^32 - 1, and the next successful serialization
wraps `++serial_` to 0 and registers handle 0 for the map. -/
theorem spec_C7_counterexample :
    (serializeInfoMap (iterSer 4294967295) (MapRef.ext 0) [] ⟨20, [], false⟩).1 = 0 ∧
    assocFind (MapRef.ext 0)
      (serializeInfoMap (iterSer 4294967295) (MapRef.ext 0) []
        ⟨20, [], false⟩).2.2.infoMapHandles = some 0 := by
  have h1 : ((iterSer 4294967295).serial + 1) % 4294967296 = 0 := by
    rw [iterSer_serial]
  constructor
  · exact serializeInfoMap_success_code (iterSer 4294967295) (MapRef.ext 0) [] 20 []
      (by decide)
  · rw [serializeInfoMap_success_handles (iterSer 4294967295) (MapRef.ext 0) [] 20 []
      (by decide), assocFind_assocSet, h1]

/-- C7 (amended): every handle a successful map serialization produces is
the incremented 32-bit serial counter, hence at least 1 as long as fewer
than 2^32 serializations have occurred (it wraps to 0 on the 2^32-th); a
ControlList with no Metadata Map is serialized with wire handle 0; a
deserialized list whose header handle is 0 is bound to the global fallback
id catalog. -/
theorem spec_C7_handle_zero_amended :
    (∀ (s : ControlSerializer) (ref : MapRef) (m : ControlInfoMap) (buf : WBuf),
      s.serial + 1 < 4294967296 →
      (serializeInfoMap s ref m buf).1 = 0 →
      assocFind ref (serializeInfoMap s ref m buf).2.2.infoMapHandles
        = some (s.serial + 1) ∧ 1 ≤ s.serial + 1)
    ∧
    (∀ (s : ControlSerializer) (es : List (Nat × ControlValue)),
      listWF ⟨.null, es⟩ = true →
      ((serializeList s ⟨.null, es⟩
        ⟨binarySizeList ⟨.null, es⟩, [], false⟩).2.1.data.drop 4).take 4 = le32 0)
    ∧
    (∀ (s : ControlSerializer) (es : List (Nat × ControlValue)),
      listWF ⟨.null, es⟩ = true →
      (deserializeList s ⟨(serializeList ControlSerializer.init ⟨.null, es⟩
        ⟨binarySizeList ⟨.null, es⟩, [], false⟩).2.1.data, 0, false⟩).1.src
        = IdSrc.global) := by
  refine ⟨?_, ?_, ?_⟩
  · intro s ref m buf hlt h0
    have hst := serializeInfoMap_success_state s ref m buf h0
    rw [hst]
    have hm : (s.serial + 1) % 4294967296 = s.serial + 1 := Nat.mod_eq_of_lt hlt
    constructor
    · show assocFind ref (assocSet ref ((s.serial + 1) % 4294967296) s.infoMapHandles)
        = some (s.serial + 1)
      rw [hm]
      exact assocFind_assocSet ref (s.serial + 1) s.infoMapHandles
    · omega
  · intro s es hwf
    have hs := serializeList_success s ⟨.null, es⟩ 0 (binarySizeList ⟨.null, es⟩) []
      rfl (by simp)
    rw [hs]
    show ((([] : List Nat) ++ wireBytesList es 0).drop 4).take 4 = le32 0
    rw [List.nil_append]
    rw [show wireBytesList es 0
      = le32 ipaControlsFormatVersion ++ (le32 0 ++ (le32 es.length
        ++ (le32 (binarySizeList ⟨.null, es⟩)
          ++ (le32 (ipaControlsHeaderSize + es.length * ipaControlValueEntrySize)
            ++ (recordsBytesList es 0
              ++ padTo ((es.map (fun c => binarySizeValue c.2)).sum)
                (valuesBytesList es)))))) from by
      simp [wireBytesList, headerBytes, List.append_assoc]]
    rw [le32_append_drop4]
    rw [show (4 : Nat) = (le32 0).length from (le32_length 0).symm, List.take_left]
  · intro s es hwf
    have hs := serializeList_success ControlSerializer.init ⟨.null, es⟩ 0
      (binarySizeList ⟨.null, es⟩) [] rfl (by simp)
    rw [hs]
    show (deserializeList s ⟨([] : List Nat) ++ wireBytesList es 0, 0, false⟩).1.src
      = IdSrc.global
    rw [List.nil_append, deserializeList_of_wire0 s es hwf]

/-- C7 witness: on a fresh Serializer the first map gets handle 1; a no-map
list is written with wire handle 0 and decodes bound to the global catalog. -/
theorem spec_C7_witness :
    (assocFind (MapRef.ext 0)
      (serializeInfoMap ControlSerializer.init (MapRef.ext 0) Mw
        ⟨binarySizeInfoMap Mw, [], false⟩).2.2.infoMapHandles
      = some (ControlSerializer.init.serial + 1)
      ∧ 1 ≤ ControlSerializer.init.serial + 1) ∧
    ((serializeList ControlSerializer.init ⟨.null, Lw⟩
      ⟨binarySizeList ⟨.null, Lw⟩, [], false⟩).2.1.data.drop 4).take 4 = le32 0 ∧
    (deserializeList ControlSerializer.init
      ⟨(serializeList ControlSerializer.init ⟨.null, Lw⟩
        ⟨binarySizeList ⟨.null, Lw⟩, [], false⟩).2.1.data, 0, false⟩).1.src
      = IdSrc.global :=
  ⟨spec_C7_handle_zero_amended.1 ControlSerializer.init (MapRef.ext 0) Mw
    ⟨binarySizeInfoMap Mw, [], false⟩ (by decide) (by decide),
   spec_C7_handle_zero_amended.2.1 ControlSerializer.init Lw (by decide),
   spec_C7_handle_zero_amended.2.2 ControlSerializer.init Lw (by decide)⟩

/-- C8: both deserializers verify the header's version field against the
single supported format version before interpreting anything else — for any
buffer whose first 20 bytes parse to a different version, whatever the rest
holds, the result is immediately the empty map (with untouched state) resp.
the default-constructed list. -/
theorem spec_C8_version_check :
    (∀ (s : ControlSerializer) (buf : RBuf),
      (parseHeader (buf.read ipaControlsHeaderSize).1).version
        ≠ ipaControlsFormatVersion →
      deserializeInfoMap s buf = ([], s, (buf.read ipaControlsHeaderSize).2))
    ∧
    (∀ (s : ControlSerializer) (buf : RBuf),
      (parseHeader (buf.read ipaControlsHeaderSize).1).version
        ≠ ipaControlsFormatVersion →
      deserializeList s buf = (emptyControlList, (buf.read ipaControlsHeaderSize).2)) := by
  constructor
  · intro s buf h
    exact deserializeInfoMap_badversion s buf h
  · intro s buf h
    exact deserializeList_badversion s buf h

/-- C8 witness at a concrete version-7 header followed by arbitrary junk. -/
theorem spec_C8_witness :
    deserializeInfoMap ControlSerializer.init
      ⟨le32 7 ++ le32 0 ++ le32 0 ++ le32 20 ++ le32 20 ++ [9, 9, 9], 0, false⟩
      = ([], ControlSerializer.init,
         ⟨le32 7 ++ le32 0 ++ le32 0 ++ le32 20 ++ le32 20 ++ [9, 9, 9], 20, false⟩) ∧
    deserializeList ControlSerializer.init
      ⟨le32 7 ++ le32 0 ++ le32 0 ++ le32 20 ++ le32 20 ++ [9, 9, 9], 0, false⟩
      = (emptyControlList,
         ⟨le32 7 ++ le32 0 ++ le32 0 ++ le32 20 ++ le32 20 ++ [9, 9, 9], 20, false⟩) := by
  constructor
  · have h := spec_C8_version_check.1 ControlSerializer.init
      ⟨le32 7 ++ le32 0 ++ le32 0 ++ le32 20 ++ le32 20 ++ [9, 9, 9], 0, false⟩ (by decide)
    rw [h]
    decide
  · have h := spec_C8_version_check.2 ControlSerializer.init
      ⟨le32 7 ++ le32 0 ++ le32 0 ++ le32 20 ++ le32 20 ++ [9, 9, 9], 0, false⟩ (by decide)
    rw [h]
    decide

/-- C9: every in-range 64-bit signed value — negative values included — is
stored through the unsigned 64-bit lane (`le64 (u64ofInt v)`, the
two's-complement bit pattern) and loads back as the original signed value:
the bit pattern is preserved, not reinterpreted. -/
theorem spec_C9_int64_roundtrip (v : Int)
    (h1 : -9223372036854775808 ≤ v) (h2 : v < 9223372036854775808) :
    storeValueBytes (ControlValue.vint64 v) = le64 (u64ofInt v) ∧
    loadControlValue 3 ⟨storeValueBytes (ControlValue.vint64 v), 0, false⟩
      = (ControlValue.vint64 v,
         ⟨storeValueBytes (ControlValue.vint64 v), 8, false⟩) := by
  refine ⟨rfl, ?_⟩
  have h := loadControlValue_store (ControlValue.vint64 v)
    (by simp only [valueWF, decide_eq_true_eq]; omega)
    (storeValueBytes (ControlValue.vint64 v)) 0 [] (by simp) (by simp)
  simpa [ControlValue.type, storeValueBytes, le64_length] using h

/-- C9 witness at v = -5. -/
theorem spec_C9_witness :
    storeValueBytes (ControlValue.vint64 (-5)) = le64 (u64ofInt (-5)) ∧
    loadControlValue 3 ⟨storeValueBytes (ControlValue.vint64 (-5)), 0, false⟩
      = (ControlValue.vint64 (-5),
         ⟨storeValueBytes (ControlValue.vint64 (-5)), 8, false⟩) :=
  spec_C9_int64_roundtrip (-5) (by decide) (by decide)

/-- A range with a None-kind bound stores strictly fewer bytes than its
`binarySize`. -/
theorem storeRangeBytes_lt_of_none (r : ControlRange)
    (hc : r.min = ControlValue.vnone ∨ r.max = ControlValue.vnone) :
    (storeRangeBytes r).length < binarySizeRange r := by
  obtain ⟨mn, mx⟩ := r
  rcases hc with hc | hc
  · simp only at hc
    subst hc
    cases mx <;>
      simp [storeRangeBytes, binarySizeRange, storeValueBytes, binarySizeValue,
        controlValueSize, ControlValue.type, le32_length, le64_length]
  · simp only at hc
    subst hc
    cases mn <;>
      simp [storeRangeBytes, binarySizeRange, storeValueBytes, binarySizeValue,
        controlValueSize, ControlValue.type, le32_length, le64_length]

/-- C10: a None-kind value stores zero bytes and loads zero bytes (any
unrecognized kind code also loads zero bytes, returning the default value),
although `binarySize` reports 1 byte for the None kind; consequently any
container holding a None-kind value writes strictly fewer value bytes than
its `binarySize` reserves. -/
theorem spec_C10_none_kind :
    storeValueBytes ControlValue.vnone = [] ∧
    binarySizeValue ControlValue.vnone = 1 ∧
    (∀ b : RBuf, loadControlValue 0 b = (ControlValue.vnone, b)) ∧
    (∀ (t : Nat) (b : RBuf), t ≠ 1 → t ≠ 2 → t ≠ 3 →
      loadControlValue t b = (ControlValue.vnone, b)) ∧
    (∀ m : ControlInfoMap,
      (∃ e ∈ m, e.2.min = ControlValue.vnone ∨ e.2.max = ControlValue.vnone) →
      (valuesBytesInfo m).length < (m.map (fun c => binarySizeRange c.2)).sum) ∧
    (∀ es : List (Nat × ControlValue), (∃ e ∈ es, e.2 = ControlValue.vnone) →
      (valuesBytesList es).length < (es.map (fun c => binarySizeValue c.2)).sum) := by
  have hle : ∀ w : ControlValue, (storeValueBytes w).length ≤ binarySizeValue w := by
    intro w
    cases w <;> simp [storeValueBytes, binarySizeValue, controlValueSize, ControlValue.type,
      le32_length, le64_length]
  refine ⟨rfl, rfl, fun b => rfl, ?_, ?_, ?_⟩
  · intro t b h1 h2 h3
    cases t with
    | zero => rfl
    | succ t1 => cases t1 with
      | zero => exact absurd rfl h1
      | succ t2 => cases t2 with
        | zero => exact absurd rfl h2
        | succ t3 => cases t3 with
          | zero => exact absurd rfl h3
          | succ t4 => rfl
  · intro m hm
    obtain ⟨e, hmem, hc⟩ := hm
    induction m with
    | nil => simp at hmem
    | cons a rest ih =>
      rcases List.mem_cons.mp hmem with hea | hea
      · have hstrict : (storeRangeBytes a.2).length < binarySizeRange a.2 :=
          storeRangeBytes_lt_of_none a.2 (hea ▸ hc)
        have hrest := valuesBytesInfo_length rest
        simp only [valuesBytesInfo, List.map_cons, List.sum_cons, List.length_append]
        omega
      · have := ih hea
        have hhead := storeRangeBytes_length a.2
        simp only [valuesBytesInfo, List.map_cons, List.sum_cons, List.length_append]
        omega
  · intro es hm
    obtain ⟨e, hmem, hc⟩ := hm
    induction es with
    | nil => simp at hmem
    | cons a rest ih =>
      rcases List.mem_cons.mp hmem with hea | hea
      · have hstrict : (storeValueBytes a.2).length < binarySizeValue a.2 := by
          rw [← hea, hc]
          simp [storeValueBytes, binarySizeValue, controlValueSize, ControlValue.type]
        have hrest := valuesBytesList_length rest
        simp only [valuesBytesList, List.map_cons, List.sum_cons, List.length_append]
        omega
      · have := ih hea
        have hhead := hle a.2
        simp only [valuesBytesList, List.map_cons, List.sum_cons, List.length_append]
        omega

/-- C10 witness at concrete inputs. -/
theorem spec_C10_witness :
    storeValueBytes ControlValue.vnone = [] ∧
    binarySizeValue ControlValue.vnone = 1 ∧
    loadControlValue 0 ⟨[5, 6], 1, false⟩ = (ControlValue.vnone, ⟨[5, 6], 1, false⟩) ∧
    loadControlValue 7 ⟨[5, 6], 1, false⟩ = (ControlValue.vnone, ⟨[5, 6], 1, false⟩) ∧
    (valuesBytesInfo [((⟨4, "", 0⟩ : ControlId), ⟨ControlValue.vnone, ControlValue.vnone⟩)]).length
      < ([((⟨4, "", 0⟩ : ControlId), (⟨ControlValue.vnone, ControlValue.vnone⟩ : ControlRange))].map
          (fun c => binarySizeRange c.2)).sum ∧
    (valuesBytesList [(1, ControlValue.vnone)]).length
      < ([((1 : Nat), ControlValue.vnone)].map (fun c => binarySizeValue c.2)).sum :=
  ⟨spec_C10_none_kind.1, spec_C10_none_kind.2.1,
   spec_C10_none_kind.2.2.1 ⟨[5, 6], 1, false⟩,
   spec_C10_none_kind.2.2.2.1 7 ⟨[5, 6], 1, false⟩ (by decide) (by decide) (by decide),
   spec_C10_none_kind.2.2.2.2.1 _
     ⟨((⟨4, "", 0⟩ : ControlId), (⟨ControlValue.vnone, ControlValue.vnone⟩ : ControlRange)),
      by decide, Or.inl rfl⟩,
   spec_C10_none_kind.2.2.2.2.2 _ ⟨((1 : Nat), ControlValue.vnone), by decide, rfl⟩⟩

end LibCamera
